import Mathlib

/-!
# Verification of the configmate change-detection / merge / resilience core

Shallow embedding, in Lean 4, of the algorithmic core of the configmate
repository:

* `setPath` and friends (`src/utils/object-utils.ts`)
* `ChangeDetector.detectChanges` (`src/detectors/change-detector.ts`),
  including the `diff` routine of the `deep-diff` dependency it delegates to
* `SnapshotManager` (`src/utils/snapshot.ts`)
* `EnvResolver` (`src/utils/env-resolver.ts`)
* `EnhancedCache` (`src/utils/enhanced-cache.ts`)
* `RetryManager`, `CircuitBreaker`, `GracefulDegradation`, `ErrorContext`,
  `ConfigRecoveryManager` (`src/utils/error-recovery.ts`)
* `ConfigManager.reload` (`src/core/config-manager.ts`)

JavaScript values are modelled by `JValue` (no floats, dates or functions are
needed by any claim; numbers are modelled as integers).  JavaScript `Map`s
and plain objects are modelled as association lists in insertion order,
which is what the JS semantics guarantees for both.
-/

namespace Configmate

/-- A JSON-like JavaScript value: scalar, array, or plain object whose
entries are kept in insertion order (JS objects preserve string-key
insertion order). -/
inductive JValue where
  | jnull : JValue
  | jbool : Bool → JValue
  | jnum : Int → JValue
  | jstr : String → JValue
  | jarr : List JValue → JValue
  | jobj : List (String × JValue) → JValue
deriving Repr, Inhabited

mutual
/-- Boolean structural equality on `JValue` (used where JS compares values
structurally; also the executable face of propositional equality). -/
def jeq : JValue → JValue → Bool
  | .jnull, .jnull => true
  | .jbool a, .jbool b => a == b
  | .jnum a, .jnum b => a == b
  | .jstr a, .jstr b => a == b
  | .jarr xs, .jarr ys => jeqList xs ys
  | .jobj xs, .jobj ys => jeqKVs xs ys
  | _, _ => false

def jeqList : List JValue → List JValue → Bool
  | [], [] => true
  | x :: xs, y :: ys => jeq x y && jeqList xs ys
  | _, _ => false

def jeqKVs : List (String × JValue) → List (String × JValue) → Bool
  | [], [] => true
  | (k1, v1) :: xs, (k2, v2) :: ys => k1 == k2 && jeq v1 v2 && jeqKVs xs ys
  | _, _ => false
end

namespace JValue

/-- `realTypeOf` of the deep-diff library: distinguishes arrays and null
from plain objects; otherwise the JS `typeof`. -/
def realTypeOf : JValue → String
  | .jnull => "null"
  | .jbool _ => "boolean"
  | .jnum _ => "number"
  | .jstr _ => "string"
  | .jarr _ => "array"
  | .jobj _ => "object"

end JValue

open JValue

/-- Executable lexicographic comparison on character lists (used only by
the spec-level deep-equality normal form). -/
def charsLe : List Char → List Char → Bool
  | [], _ => true
  | _ :: _, [] => false
  | a :: as, b :: bs =>
    if a.val < b.val then true else if b.val < a.val then false else charsLe as bs

/-- Executable `≤` on strings. -/
def strLeB (a b : String) : Bool := charsLe a.toList b.toList

/-- Insert-order-preserving insertion sort of object entries by key,
used only to define spec-level deep equality (key order irrelevant). -/
def insertByKey (kv : String × JValue) : List (String × JValue) → List (String × JValue)
  | [] => [kv]
  | kv2 :: rest =>
    if strLeB kv.1 kv2.1 then kv :: kv2 :: rest else kv2 :: insertByKey kv rest

/-- Sort object entries by key (stable insertion sort). -/
def sortByKey : List (String × JValue) → List (String × JValue)
  | [] => []
  | kv :: rest => insertByKey kv (sortByKey rest)

mutual
/-- Canonical form of a value: object keys sorted recursively.  Two values
are deep-equal in the spec's sense (recursive structural comparison,
key-order-independent for mappings, index-order-dependent for sequences)
iff their canonical forms are equal. -/
def canon : JValue → JValue
  | .jnull => .jnull
  | .jbool b => .jbool b
  | .jnum n => .jnum n
  | .jstr s => .jstr s
  | .jarr xs => .jarr (canonList xs)
  | .jobj kvs => .jobj (sortByKey (canonKVs kvs))

def canonList : List JValue → List JValue
  | [] => []
  | x :: xs => canon x :: canonList xs

def canonKVs : List (String × JValue) → List (String × JValue)
  | [] => []
  | (k, v) :: rest => (k, canon v) :: canonKVs rest
end

/-- Spec-level deep structural equality (glossary of the spec):
key-order-independent for mappings, index-order-dependent for sequences. -/
def deepEqualB (a b : JValue) : Bool := jeq (canon a) (canon b)

/-- The opening-brace character, as a string. -/
def lbr : String := "\x7b"

/-- The closing-brace character, as a string. -/
def rbr : String := "\x7d"

/-- JSON string escaping as performed by `JSON.stringify` on strings:
backslash, double quote and (simplified to the common cases) the control
characters used by the repository's configuration values. -/
def jsonEscapeChar (c : Char) : String :=
  if c = '\\' then "\\\\"
  else if c = '"' then "\\\""
  else if c = '\n' then "\\n"
  else if c = '\t' then "\\t"
  else if c = '\r' then "\\r"
  else String.singleton c

/-- JSON escaping of a whole string body. -/
def jsonEscape (s : String) : String :=
  String.join (s.toList.map jsonEscapeChar)

mutual
/-- `JSON.stringify` (compact form, no spacing argument) on our value
model.  Object entries are emitted in insertion order, exactly as
`JSON.stringify` does for string-keyed JS objects. -/
def jsonStringify : JValue → String
  | .jnull => "null"
  | .jbool b => if b then "true" else "false"
  | .jnum n => toString n
  | .jstr s => "\"" ++ jsonEscape s ++ "\""
  | .jarr xs => "[" ++ jsonStringifyList xs ++ "]"
  | .jobj kvs => lbr ++ jsonStringifyKVs kvs ++ rbr

def jsonStringifyList : List JValue → String
  | [] => ""
  | [x] => jsonStringify x
  | x :: xs => jsonStringify x ++ "," ++ jsonStringifyList xs

def jsonStringifyKVs : List (String × JValue) → String
  | [] => ""
  | [(k, v)] => "\"" ++ jsonEscape k ++ "\":" ++ jsonStringify v
  | (k, v) :: kvs =>
    "\"" ++ jsonEscape k ++ "\":" ++ jsonStringify v ++ "," ++ jsonStringifyKVs kvs
end

/-! ## Association-list model of JS `Map` / plain-object key access -/

/-- Look up a key (JS `map.get(k)` / `obj[k]`). -/
def mapGet {β : Type} (kvs : List (String × β)) (k : String) : Option β :=
  match kvs.find? (fun kv => kv.1 == k) with
  | some kv => some kv.2
  | none => none

/-- JS `map.set(k, v)` / `obj[k] = v`: update in place if the key exists
(keeping its position), else append. -/
def mapSet {β : Type} (kvs : List (String × β)) (k : String) (v : β) :
    List (String × β) :=
  if kvs.any (fun kv => kv.1 == k) then
    kvs.map (fun kv => if kv.1 == k then (k, v) else kv)
  else kvs ++ [(k, v)]

/-- JS `map.delete(k)`: remove the (unique) entry with key `k`. -/
def mapDelete {β : Type} (kvs : List (String × β)) (k : String) :
    List (String × β) :=
  kvs.eraseP (fun kv => kv.1 == k)

/-! ## `src/utils/object-utils.ts`: safe path-based mutation -/

/-- `key === '__proto__' || key === 'constructor' || key === 'prototype'`:
the reserved-key deny list of `object-utils.ts`. -/
def reservedKey (k : String) : Bool :=
  k == "__proto__" || k == "constructor" || k == "prototype"

/-- JS `obj && typeof obj === 'object'`: true exactly for arrays and plain
objects (null is falsy, so it fails the first conjunct even though its
`typeof` is `'object'`). -/
def isTruthyObject : JValue → Bool
  | .jarr _ => true
  | .jobj _ => true
  | _ => false

/-- JS spread `{...v}` on an array or object: an array spreads to a plain
object keyed by decimal indices. Only reached under an `isTruthyObject`
guard in `setPath`. -/
def jsSpread : JValue → List (String × JValue)
  | .jobj kvs => kvs
  | .jarr xs => xs.enum.map (fun p => (toString p.1, p.2))
  | _ => []

/-- The descent loop of `setPath`: walk `keys`, freshly allocating (spread
copy) every container on the path, creating `\x7b\x7d` where the current
value is absent or not a truthy object, and finally assign the last key.
An empty key list assigns JS `obj[undefined]`, i.e. the key
`"undefined"`. -/
def setPathGo : List (String × JValue) → List String → JValue → List (String × JValue)
  | kvs, [], v => mapSet kvs "undefined" v
  | kvs, [k], v => mapSet kvs k v
  | kvs, k :: k2 :: rest, v =>
    let child : List (String × JValue) :=
      match mapGet kvs k with
      | some c => if isTruthyObject c then jsSpread c else []
      | none => []
    mapSet kvs k (.jobj (setPathGo child (k2 :: rest) v))

/-- `setPath(obj, keys, value)` with the path already given as a key
sequence (the `Array.isArray(path)` branch). Returns the original object
untouched when it is not a truthy object or when any path segment is a
reserved key. -/
def setPathKeys (obj : JValue) (keys : List String) (v : JValue) : JValue :=
  if !isTruthyObject obj then obj
  else if keys.any reservedKey then obj
  else .jobj (setPathGo (jsSpread obj) keys v)

/-- JS `String.prototype.split('.')` on a character list: splits at every
dot, keeping empty groups (`"a..b"` gives `["a", "", "b"]`, `""` gives
`[""]`). -/
def splitDotChars : List Char → List (List Char)
  | [] => [[]]
  | c :: cs =>
    if c = '.' then [] :: splitDotChars cs
    else
      match splitDotChars cs with
      | g :: gs => (c :: g) :: gs
      | [] => [[c]]

/-- JS `path.split('.')`. -/
def splitDot (s : String) : List String :=
  (splitDotChars s.toList).map String.mk

/-- `setPath(obj, path, value)` with a dotted-string path
(`path.split('.')` branch). -/
def setPath (obj : JValue) (path : String) (v : JValue) : JValue :=
  setPathKeys obj (splitDot path) v

/-! ## `deep-diff`'s `diff` and `ChangeDetector` -/

/-- One component of a deep-diff path: an object key or an array index. -/
inductive PathKey where
  | str : String → PathKey
  | idx : Nat → PathKey
deriving Repr, DecidableEq

/-- The `item` of a deep-diff array record (`kind: 'A'`): an inner `'N'`
(new, has only `rhs`) or `'D'` (deleted, has only `lhs`) record. -/
inductive DiffItem where
  | itemN : JValue → DiffItem
  | itemD : JValue → DiffItem
deriving Repr

/-- A record produced by deep-diff's `diff`: kinds `'N'`, `'D'`, `'E'`
and `'A'`. -/
inductive DiffRecord where
  | newR : List PathKey → JValue → DiffRecord
  | delR : List PathKey → JValue → DiffRecord
  | editR : List PathKey → JValue → JValue → DiffRecord
  | arrR : List PathKey → Nat → DiffItem → DiffRecord
deriving Repr

/-- JS strict inequality `lhs !== rhs` restricted to the values that can
reach deep-diff's final `else` branch (same `realTypeOf`, not array and
not object): scalar comparison by value, and `null !== null` is false. -/
def jsStrictNe : JValue → JValue → Bool
  | .jnull, .jnull => false
  | .jbool a, .jbool b => a != b
  | .jnum a, .jnum b => a != b
  | .jstr a, .jstr b => a != b
  | _, _ => false

/-- The `kind: 'A'` records deep-diff emits for the indices present in only
the longer of two arrays, in the order of the source's two `while` loops:
descending from the longer length minus one down to the shorter length. -/
def arrExtra (ls rs : List JValue) (p : List PathKey) : List DiffRecord :=
  if rs.length > ls.length then
    ((List.range' ls.length (rs.length - ls.length)).reverse).map
      (fun i => .arrR p i (.itemN (rs.getD i .jnull)))
  else
    ((List.range' rs.length (ls.length - rs.length)).reverse).map
      (fun i => .arrR p i (.itemD (ls.getD i .jnull)))

/-- The `pkeys.forEach` loop: keys of the right object not nulled out by
the left pass, in right-object order, each emitting an `'N'` record. -/
def objNews (lk rk : List (String × JValue)) (p : List PathKey) : List DiffRecord :=
  (rk.filter (fun kv => !(lk.any (fun lkv => lkv.1 == kv.1)))).map
    (fun kv => .newR (p ++ [.str kv.1]) kv.2)

mutual
/-- deep-diff's `deepDiff` on two defined values (both sides present):
edit on `realTypeOf` mismatch, index-wise recursion for arrays, key-wise
recursion for objects, strict comparison for scalars. -/
def diffBoth (l r : JValue) (p : List PathKey) : List DiffRecord :=
  if realTypeOf l != realTypeOf r then [.editR p l r]
  else
    match l, r with
    | .jarr ls, .jarr rs => arrExtra ls rs p ++ arrCommon ls rs p 0
    | .jobj lk, .jobj rk => diffObjL lk rk p ++ objNews lk rk p
    | a, b => if jsStrictNe a b then [.editR p a b] else []

/-- The common-prefix loop over two arrays. The source iterates indices
from the shorter length minus one **down to** 0, so records for higher
indices precede records for lower ones. -/
def arrCommon (ls rs : List JValue) (p : List PathKey) (i : Nat) : List DiffRecord :=
  match ls, rs with
  | l :: ls2, r :: rs2 =>
    arrCommon ls2 rs2 p (i + 1) ++ diffBoth l r (p ++ [.idx i])
  | _, _ => []

/-- The `akeys.forEach` loop: keys of the left object in order, recursing
when the key is also in the right object and emitting a `'D'` record
(via `deepDiff(lhs[k], undefined)`) when it is not. -/
def diffObjL (lk rk : List (String × JValue)) (p : List PathKey) : List DiffRecord :=
  match lk with
  | [] => []
  | (k, v) :: rest =>
    (match mapGet rk k with
     | some rv => diffBoth v rv (p ++ [.str k])
     | none => [.delR (p ++ [.str k]) v]) ++ diffObjL rest rk p
end

/-- deep-diff's `deepDiff` entry including the `undefined` cases used by the
object recursion: only-right defined is `'N'`, only-left is `'D'`. -/
def deepDiff : Option JValue → Option JValue → List PathKey → List DiffRecord
  | none, none, _ => []
  | none, some r, p => [.newR p r]
  | some l, none, p => [.delR p l]
  | some l, some r, p => diffBoth l r p

/-- `ConfigChange.type` in `src/types`. -/
inductive ChangeType where
  | added | modified | deleted
deriving Repr, DecidableEq

/-- `ConfigChange` of `src/types` (the JS `timestamp: Date` is modelled as
a number supplied by the caller of `detectChanges`). -/
structure ConfigChange where
  type : ChangeType
  path : String
  oldValue : Option JValue
  newValue : Option JValue
  file : String
  environment : Option String
  timestamp : Nat
deriving Repr

/-- `/^[a-zA-Z_$][a-zA-Z0-9_$]*$/` of `ChangeDetector.buildPath`. -/
def isIdentChar (first : Bool) (c : Char) : Bool :=
  (c.isAlpha || c = '_' || c = '$') || (!first && c.isDigit)

/-- Whether a key matches `buildPath`'s identifier regex. -/
def isIdentifierKey (s : String) : Bool :=
  match s.toList with
  | [] => false
  | c :: cs => isIdentChar true c && cs.all (isIdentChar false)

/-- `ChangeDetector.buildPath`: first segment plain, numeric indices
bracketed, later string keys dotted or bracket-quoted. -/
def buildPath (pa : List PathKey) : String :=
  String.join ((pa.enum).map (fun pair =>
    match pair.2 with
    | .idx n => "[" ++ toString n ++ "]"
    | .str k =>
      if pair.1 == 0 then k
      else if isIdentifierKey k then "." ++ k
      else "[\"" ++ k ++ "\"]"))

/-- The `switch` of `ChangeDetector.detectChanges` mapping a deep-diff
record to a `ConfigChange`. `'A'` records become `type: 'modified'` with
`oldValue`/`newValue` read from `item?.lhs` / `item?.rhs` (absent on the
`'N'` / `'D'` item respectively). -/
def recordToChange (file : String) (env : Option String) (now : Nat) :
    DiffRecord → ConfigChange
  | .newR p rhs => ⟨.added, buildPath p, none, some rhs, file, env, now⟩
  | .delR p lhs => ⟨.deleted, buildPath p, some lhs, none, file, env, now⟩
  | .editR p lhs rhs => ⟨.modified, buildPath p, some lhs, some rhs, file, env, now⟩
  | .arrR p i (.itemN rhs) =>
    ⟨.modified, buildPath p ++ "[" ++ toString i ++ "]", none, some rhs, file, env, now⟩
  | .arrR p i (.itemD lhs) =>
    ⟨.modified, buildPath p ++ "[" ++ toString i ++ "]", some lhs, none, file, env, now⟩

/-- `ChangeDetector.detectChanges(oldConfig, newConfig, file, environment)`.
All records of one call share the same `file`/`environment` and (model)
timestamp. -/
def detectChanges (oldConfig newConfig : Option JValue) (file : String)
    (env : Option String) (now : Nat) : List ConfigChange :=
  (deepDiff oldConfig newConfig []).map (recordToChange file env now)

/-! ## `src/utils/snapshot.ts`: `SnapshotManager` -/

/-- `cloneDeep` of `src/utils/cache.ts`: `structuredClone` (or the JSON
round-trip fallback) returns an independent, structurally equal copy with
the same key order.  On pure values an independent equal copy *is* the
value, so the model is the identity. -/
def cloneDeep (v : JValue) : JValue := v

/-- `Snapshot` of `src/utils/snapshot.ts` (`timestamp: Date` modelled as a
number). -/
structure Snapshot where
  id : String
  timestamp : Nat
  config : JValue
  description : Option String
deriving Repr

/-- `SnapshotManager` state: the `Map` of snapshots (insertion order) and
the `history` array of ids in creation order. -/
structure SM where
  snapshots : List (String × Snapshot)
  maxSnapshots : Nat
  history : List String
deriving Repr

/-- `new SnapshotManager(maxSnapshots)`. -/
def SM.init (maxSnapshots : Nat) : SM := ⟨[], maxSnapshots, []⟩

/-- `SnapshotManager.create(id, config, description)`: evict the oldest id
when at capacity (`history.shift()`; the shifted id is only deleted from
the map when truthy, i.e. non-empty), then build the snapshot, `set` it in
the map (overwriting in place on id reuse) and unconditionally push the id
onto `history`. -/
def SM.create (m : SM) (id : String) (config : JValue)
    (description : Option String) (now : Nat) : SM × Snapshot :=
  let m :=
    if m.snapshots.length ≥ m.maxSnapshots then
      match m.history with
      | [] => m
      | oldest :: rest =>
        if oldest = "" then { m with history := rest }
        else { m with history := rest, snapshots := mapDelete m.snapshots oldest }
    else m
  let snap : Snapshot := ⟨id, now, cloneDeep config, description⟩
  ({ m with snapshots := mapSet m.snapshots id snap,
            history := m.history ++ [id] }, snap)

/-- `SnapshotManager.get(id)`. -/
def SM.get (m : SM) (id : String) : Option Snapshot := mapGet m.snapshots id

/-- `SnapshotManager.has(id)`. -/
def SM.has (m : SM) (id : String) : Bool := (mapGet m.snapshots id).isSome

/-- `SnapshotManager.delete(id)`: splice the first occurrence of the id out
of `history`, then delete from the map. -/
def SM.deleteSnap (m : SM) (id : String) : SM × Bool :=
  ({ m with history := m.history.erase id,
            snapshots := mapDelete m.snapshots id },
   (mapGet m.snapshots id).isSome)

/-- `SnapshotManager.list()`: a copy of `history`. -/
def SM.list (m : SM) : List String := m.history

/-- `SnapshotManager.getAll()`: history ids resolved through the map,
dropping ids with no entry. -/
def SM.getAll (m : SM) : List Snapshot :=
  m.history.filterMap (fun id => mapGet m.snapshots id)

/-- `SnapshotManager.size()`. -/
def SM.size (m : SM) : Nat := m.snapshots.length

/-- Result record of `SnapshotManager.compare`. -/
structure CompareResult where
  snapshot1 : Option Snapshot
  snapshot2 : Option Snapshot
  identical : Bool
deriving Repr

/-- `SnapshotManager.compare(id1, id2)`: `identical` is false when either
snapshot is absent, and otherwise is
`JSON.stringify(config1) === JSON.stringify(config2)`. -/
def SM.compare (m : SM) (id1 id2 : String) : CompareResult :=
  let s1 := mapGet m.snapshots id1
  let s2 := mapGet m.snapshots id2
  match s1, s2 with
  | some a, some b => ⟨s1, s2, jsonStringify a.config == jsonStringify b.config⟩
  | _, _ => ⟨s1, s2, false⟩

/-! ## `src/utils/env-resolver.ts`: `EnvResolver` -/

/-- The opening-brace character. -/
def obrace : Char := Char.ofNat 123

/-- The closing-brace character. -/
def cbrace : Char := Char.ofNat 125

/-- The single-quote character. -/
def squote : String := String.singleton (Char.ofNat 39)

/-- `EnvResolutionError` of `src/errors.ts` (fields `message`, `variable`,
`path`). -/
structure EnvResolutionError where
  message : String
  varName : String
  path : String
deriving Repr

/-- `EnvResolver` state: environment map, `strict`, `prefix`, `warn`. -/
structure EnvResolverState where
  env : List (String × String)
  strict : Bool
  prefixStr : String
  warn : Bool

/-- Greedy run of `NAME` characters of `ENV_VAR_REGEX`
(`[^\x7d:]+`, i.e. anything except the closing brace and the colon),
returning the run and the remaining characters. -/
def takeName (cs : List Char) : List Char × List Char :=
  cs.span (fun c => c != cbrace && c != ':')

/-- Greedy run of `DEFAULT` characters (`[^\x7d]*`). -/
def takeDefault (cs : List Char) : List Char × List Char :=
  cs.span (fun c => c != cbrace)

/-- Attempt to match the body of `ENV_VAR_REGEX` right after an opening
`$\x7b`: a non-empty `NAME`, an optional `:DEFAULT`, and the closing
brace.  Returns the name, the optional default and the characters after
the match.  This is exactly the backtracking-free behaviour of
`/\$\x7b([^\x7d:]+)(?::([^\x7d]*))?\x7d/`: the name run is maximal, and
the optional group is taken iff a colon follows the name and a closing
brace follows the default run. -/
def tryMatch (cs : List Char) : Option (String × Option String × List Char) :=
  let nameSpan := takeName cs
  if nameSpan.1.isEmpty then none
  else
    match nameSpan.2 with
    | d :: rest2 =>
      if d = cbrace then some (String.mk nameSpan.1, none, rest2)
      else if d = ':' then
        let dSpan := takeDefault rest2
        match dSpan.2 with
        | e :: rest4 =>
          if e = cbrace then some (String.mk nameSpan.1, some (String.mk dSpan.1), rest4)
          else none
        | [] => none
      else none
    | [] => none

/-- A placeholder match attempt at a position whose character is `$`:
requires the next character to be the opening brace. -/
def tryBrace (cs : List Char) : Option (String × Option String × List Char) :=
  match cs with
  | b :: rest => if b = obrace then tryMatch rest else none
  | [] => none

/-- `this.prefix ? `...`${this.prefix}${varName}` : varName`. -/
def fullNameOf (res : EnvResolverState) (name : String) : String :=
  if res.prefixStr ≠ "" then res.prefixStr ++ name else name

/-- The replacement callback of `resolveString`: look up `prefix + NAME`;
fall back to the default; in strict mode fail with an
`EnvResolutionError` carrying the (prefixed) variable name and the
structural path; otherwise (optionally warning) yield the original
`$\x7bNAME\x7d` token unchanged. -/
def substMatch (res : EnvResolverState) (path : String) (name : String)
    (dflt : Option String) : Except EnvResolutionError String :=
  match mapGet res.env (fullNameOf res name) with
  | some v => .ok v
  | none =>
    match dflt with
    | some d => .ok d
    | none =>
      if res.strict then
        .error ⟨"Environment variable " ++ squote ++ fullNameOf res name ++ squote
                  ++ " is not defined", fullNameOf res name, path⟩
      else
        .ok ("$" ++ lbr ++ name ++ rbr)

theorem takeName_rest_le (cs : List Char) : (takeName cs).2.length ≤ cs.length := by
  simp only [takeName, List.span_eq_take_drop]
  exact (List.dropWhile_sublist _).length_le

theorem takeDefault_rest_le (cs : List Char) : (takeDefault cs).2.length ≤ cs.length := by
  simp only [takeDefault, List.span_eq_take_drop]
  exact (List.dropWhile_sublist _).length_le

theorem tryMatch_rest_lt (cs : List Char) (name : String) (dflt : Option String)
    (rest : List Char) (h : tryMatch cs = some (name, dflt, rest)) :
    rest.length < cs.length := by
  unfold tryMatch at h
  have hn := takeName_rest_le cs
  have hlen : cs.length = (takeName cs).1.length + (takeName cs).2.length := by
    simp only [takeName, List.span_eq_take_drop]
    rw [← List.length_append, List.takeWhile_append_dropWhile]
  by_cases hemp : (takeName cs).1.isEmpty
  · simp [hemp] at h
  · simp only [hemp, if_false, Bool.false_eq_true] at h
    have hpos : 0 < (takeName cs).1.length := by
      cases h1 : (takeName cs).1 with
      | nil => rw [h1] at hemp; simp [List.isEmpty] at hemp
      | cons a as => simp [h1]
    cases h2 : (takeName cs).2 with
    | nil => rw [h2] at h; exact absurd h (by simp)
    | cons d rest2 =>
      rw [h2] at h
      have hrest2 : rest2.length + 1 = (takeName cs).2.length := by
        rw [h2]; simp
      by_cases hd : d = cbrace
      · simp only [hd, if_true] at h
        cases h with
        | refl => omega
      · simp only [hd, if_false] at h
        by_cases hc : d = ':'
        · simp only [hc, if_true] at h
          have hdle := takeDefault_rest_le rest2
          cases h3 : (takeDefault rest2).2 with
          | nil => rw [h3] at h; exact absurd h (by simp)
          | cons e rest4 =>
            rw [h3] at h
            have : rest4.length + 1 = (takeDefault rest2).2.length := by rw [h3]; simp
            by_cases he : e = cbrace
            · simp only [he, if_true] at h
              cases h with
              | refl =>
                have := takeDefault_rest_le rest2
                omega
            · simp [he] at h
        · simp [hc] at h

theorem tryBrace_rest_lt (cs : List Char) (name : String) (dflt : Option String)
    (rest : List Char) (h : tryBrace cs = some (name, dflt, rest)) :
    rest.length < cs.length := by
  unfold tryBrace at h
  cases cs with
  | nil => exact absurd h (by simp)
  | cons b rest2 =>
    by_cases hb : b = obrace
    · simp only [hb, if_true] at h
      have := tryMatch_rest_lt rest2 name dflt rest h
      simp only [List.length_cons]
      omega
    · simp [hb] at h

/-- The scanning loop of `String.prototype.replace` with the global
`ENV_VAR_REGEX`: at each position, if a full placeholder matches, emit the
callback's replacement and continue after the match; otherwise copy one
character.  A failed callback (strict mode) propagates. -/
def scanChars (res : EnvResolverState) (path : String) :
    List Char → Except EnvResolutionError (List Char)
  | [] => .ok []
  | c :: cs =>
    match h : if c = '$' then tryBrace cs else none with
    | some nmd =>
      match substMatch res path nmd.1 nmd.2.1 with
      | .error e => .error e
      | .ok rep =>
        match scanChars res path nmd.2.2 with
        | .error e => .error e
        | .ok tail => .ok (rep.toList ++ tail)
    | none =>
      match scanChars res path cs with
      | .error e => .error e
      | .ok tail => .ok (c :: tail)
termination_by cs => cs.length
decreasing_by
  · have hb : tryBrace cs = some nmd := by
      split at h
      · exact h
      · exact absurd h (by simp)
    have := tryBrace_rest_lt cs nmd.1 nmd.2.1 nmd.2.2 hb
    simp only [List.length_cons]
    omega
  · simp

/-- `EnvResolver.resolveString(str, path)`. -/
def resolveString (res : EnvResolverState) (s : String) (path : String) :
    Except EnvResolutionError String :=
  match scanChars res path s.toList with
  | .error e => .error e
  | .ok cs => .ok (String.mk cs)

mutual
/-- `EnvResolver.resolve(value, path)`: strings are substituted, arrays
and objects are walked with extended paths, all other values pass
through. -/
def resolveJ (res : EnvResolverState) : JValue → String → Except EnvResolutionError JValue
  | .jstr s, path =>
    match resolveString res s path with
    | .error e => .error e
    | .ok s2 => .ok (.jstr s2)
  | .jarr xs, path =>
    match resolveArr res xs path 0 with
    | .error e => .error e
    | .ok xs2 => .ok (.jarr xs2)
  | .jobj kvs, path =>
    match resolveObj res kvs path with
    | .error e => .error e
    | .ok kvs2 => .ok (.jobj kvs2)
  | v, _ => .ok v

/-- The `value.map((item, index) => resolve(item, path[index]))` branch. -/
def resolveArr (res : EnvResolverState) :
    List JValue → String → Nat → Except EnvResolutionError (List JValue)
  | [], _, _ => .ok []
  | x :: xs, path, i =>
    match resolveJ res x (path ++ "[" ++ toString i ++ "]") with
    | .error e => .error e
    | .ok x2 =>
      match resolveArr res xs path (i + 1) with
      | .error e => .error e
      | .ok xs2 => .ok (x2 :: xs2)

/-- The `Object.entries` branch: extend the dotted path per key. -/
def resolveObj (res : EnvResolverState) :
    List (String × JValue) → String → Except EnvResolutionError (List (String × JValue))
  | [], _ => .ok []
  | (k, v) :: rest, path =>
    match resolveJ res v (if path ≠ "" then path ++ "." ++ k else k) with
    | .error e => .error e
    | .ok v2 =>
      match resolveObj res rest path with
      | .error e => .error e
      | .ok rest2 => .ok ((k, v2) :: rest2)
end

/-- `EnvResolver.resolve(value)` (top level, path starts empty). -/
def resolveTop (res : EnvResolverState) (v : JValue) : Except EnvResolutionError JValue :=
  resolveJ res v ""

/-! ## `src/utils/enhanced-cache.ts`: `EnhancedCache` -/

/-- `CacheEntry` of `enhanced-cache.ts` (`Date.now()` values modelled as
numbers supplied per call). -/
structure ECEntry where
  value : JValue
  timestamp : Nat
  accessCount : Nat
  lastAccessed : Nat
  size : Nat
deriving Repr

/-- `EnhancedCache` state.  `currentMemory` is an `Int` deliberately: the
code maintains it by increments and decrements, and whether it can
go negative is precisely claim C10's question. -/
structure EC where
  cache : List (String × ECEntry)
  maxSize : Nat
  ttl : Nat
  maxMemory : Nat
  currentMemory : Int
  hits : Nat
  misses : Nat
deriving Repr

/-- JS `o || d` on an optional numeric option: `0` is falsy and also
selects the default. -/
def orDefault (o : Option Nat) (d : Nat) : Nat :=
  match o with
  | some n => if n = 0 then d else n
  | none => d

/-- `new EnhancedCache(options)`: `maxSize || 100`, `ttl || 60000`,
`maxMemory || 50 * 1024 * 1024`. -/
def ecInit (maxSizeOpt ttlOpt maxMemoryOpt : Option Nat) : EC :=
  ⟨[], orDefault maxSizeOpt 100, orDefault ttlOpt 60000,
    orDefault maxMemoryOpt (50 * 1024 * 1024), 0, 0, 0⟩

/-- `EnhancedCache.estimateSize`: null 8, strings two bytes per character,
numbers 8, booleans 4, objects and arrays twice the length of their
compact JSON serialization. -/
def estimateSize : JValue → Nat
  | .jnull => 8
  | .jstr s => s.length * 2
  | .jnum _ => 8
  | .jbool _ => 4
  | v => (jsonStringify v).length * 2

/-- `EnhancedCache.delete(key)`: subtract the entry's recorded size (and
fire `onEvict`, not modelled) before removing it from the map. -/
def ecDelete (c : EC) (k : String) : EC × Bool :=
  match mapGet c.cache k with
  | some e =>
    ({ c with currentMemory := c.currentMemory - e.size,
              cache := mapDelete c.cache k }, true)
  | none => (c, false)

/-- The memory `while` loop of `evictIfNeeded`: evict the least recently
used (first) entry while the memory ceiling would be exceeded and the
cache is non-empty.  Evicting goes through `delete`, which subtracts the
evicted entry's size. -/
def ecEvictMem (need maxMem : Nat) :
    List (String × ECEntry) → Int → List (String × ECEntry) × Int
  | [], cur => ([], cur)
  | (k, e) :: rest, cur =>
    if cur + need > maxMem then ecEvictMem need maxMem rest (cur - e.size)
    else ((k, e) :: rest, cur)

/-- The size `while` loop of `evictIfNeeded`: evict the first entry while
`cache.size >= maxSize`.  (The constructor guarantees `maxSize ≥ 1`, so
the loop always terminates in JS as well.) -/
def ecEvictSize (maxSize : Nat) :
    List (String × ECEntry) → Int → List (String × ECEntry) × Int
  | [], cur => ([], cur)
  | (k, e) :: rest, cur =>
    if rest.length + 1 ≥ maxSize then ecEvictSize maxSize rest (cur - e.size)
    else ((k, e) :: rest, cur)

/-- `EnhancedCache.evictIfNeeded(newItemSize)`. -/
def ecEvictIfNeeded (c : EC) (newItemSize : Nat) : EC :=
  let r1 := ecEvictMem newItemSize c.maxMemory c.cache c.currentMemory
  let r2 := ecEvictSize c.maxSize r1.1 r1.2
  { c with cache := r2.1, currentMemory := r2.2 }

/-- `EnhancedCache.set(key, value)`: reject oversized single values;
remove (and un-account) an existing entry for the key; evict as needed;
insert the fresh entry at the most-recently-used end and add its size. -/
def ecSet (c : EC) (k : String) (v : JValue) (now : Nat) : EC :=
  let size := estimateSize v
  if size > c.maxMemory then c
  else
    let c1 :=
      match mapGet c.cache k with
      | some e => { c with currentMemory := c.currentMemory - e.size,
                           cache := mapDelete c.cache k }
      | none => c
    let c2 := ecEvictIfNeeded c1 size
    { c2 with cache := c2.cache ++ [(k, ⟨v, now, 1, now, size⟩)],
              currentMemory := c2.currentMemory + size }

/-- `EnhancedCache.get(key)`: miss on absence; lazy-expire (through
`delete`) on TTL overrun; otherwise bump the entry's access statistics and
move it to the most-recently-used end (raw `Map` delete + set, which does
not touch the memory account). -/
def ecGet (c : EC) (k : String) (now : Nat) : EC × Option JValue :=
  match mapGet c.cache k with
  | none => ({ c with misses := c.misses + 1 }, none)
  | some e =>
    if (now : Int) - e.timestamp > c.ttl then
      let c1 := (ecDelete c k).1
      ({ c1 with misses := c1.misses + 1 }, none)
    else
      let e2 : ECEntry := { e with accessCount := e.accessCount + 1, lastAccessed := now }
      ({ c with hits := c.hits + 1,
                cache := mapDelete c.cache k ++ [(k, e2)] }, some e2.value)

/-- `EnhancedCache.has(key)`: the same expiry check without promotion. -/
def ecHas (c : EC) (k : String) (now : Nat) : EC × Bool :=
  match mapGet c.cache k with
  | none => (c, false)
  | some e =>
    if (now : Int) - e.timestamp > c.ttl then ((ecDelete c k).1, false)
    else (c, true)

/-- `EnhancedCache.clear()` (fires `onEvict` per entry, not modelled). -/
def ecClear (c : EC) : EC :=
  { c with cache := [], currentMemory := 0, hits := 0, misses := 0 }

/-- `EnhancedCache.cleanup()`: delete every TTL-expired entry (each via
`delete`, so each subtracts its size once), returning the count removed.
Iteration is over the entries as of call time; only the entry under the
cursor is ever deleted, which JS `Map` iteration permits. -/
def ecCleanup (c : EC) (now : Nat) : EC × Nat :=
  c.cache.foldl
    (fun acc kv =>
      if (now : Int) - kv.2.timestamp > c.ttl then ((ecDelete acc.1 kv.1).1, acc.2 + 1)
      else acc)
    (c, 0)

/-- The `memoryUsage` field of `EnhancedCache.getStats()`. -/
def ecMemoryUsage (c : EC) : Int := c.currentMemory

/-- One public mutating operation on an `EnhancedCache` (`Date.now()`
supplied as an argument where the code reads the clock). -/
inductive ECOp where
  | setOp (k : String) (v : JValue) (now : Nat)
  | getOp (k : String) (now : Nat)
  | hasOp (k : String) (now : Nat)
  | delOp (k : String)
  | clearOp
  | cleanupOp (now : Nat)

/-- State transition of one operation (return values discarded). -/
def ecStep (c : EC) : ECOp → EC
  | .setOp k v now => ecSet c k v now
  | .getOp k now => (ecGet c k now).1
  | .hasOp k now => (ecHas c k now).1
  | .delOp k => (ecDelete c k).1
  | .clearOp => ecClear c
  | .cleanupOp now => (ecCleanup c now).1

/-- Run a sequence of cache operations. -/
def ecRun (c : EC) (ops : List ECOp) : EC := ops.foldl ecStep c

/-- Sum of the recorded size estimates of the entries currently present. -/
def sumSizes (cache : List (String × ECEntry)) : Int :=
  (cache.map (fun kv => (kv.2.size : Int))).sum

/-! ## `src/utils/error-recovery.ts`: resilience primitives -/

/-- A JS `Error` as observed by this code: `name` (constructor kind),
`message`, `stack`. -/
structure JsError where
  name : String
  message : String
  stack : String
deriving Repr, DecidableEq

/-- `RetryOptions` after merging with `defaultOptions`. -/
structure RetryOptions where
  maxAttempts : Nat
  delay : Nat
  backoffMultiplier : Nat
  maxDelay : Nat
  shouldRetry : JsError → Nat → Bool

/-- The `shouldRetry` member of `RetryManager.defaultOptions`:
`(error, attempt) => attempt < 3` — the bound is the literal `3`, not
`maxAttempts`. -/
def defaultShouldRetry : JsError → Nat → Bool := fun _ attempt => attempt < 3

/-- `RetryManager.defaultOptions`. -/
def defaultRetryOptions : RetryOptions := ⟨3, 1000, 2, 30000, defaultShouldRetry⟩

/-- `{ ...defaultOptions, maxAttempts }`: the only override the claims
exercise. -/
def retryOptionsWithMaxAttempts (n : Nat) : RetryOptions :=
  ⟨n, 1000, 2, 30000, defaultShouldRetry⟩

/-- The `for (let attempt = 1; attempt <= maxAttempts; attempt++)` loop of
`RetryManager.execute`.  `op` gives the outcome of each (1-based) attempt;
the second component counts invocations of `op`.  The sleep between
attempts has no observable effect on the result; the stored delay is
multiplied by `backoffMultiplier` each round (the `maxDelay` cap applies
only to the slept duration).  The fuel equals the number of remaining
attempts and never reaches 0 before the loop exits. -/
def retryGo (op : Nat → Except JsError α) (opts : RetryOptions) :
    Nat → Nat → Nat → Except JsError α × Nat
  | 0, _, _ => (.error ⟨"ReferenceError", "lastError is not defined", ""⟩, 0)
  | fuel + 1, attempt, delay =>
    match op attempt with
    | .ok v => (.ok v, 1)
    | .error e =>
      if attempt = opts.maxAttempts || !(opts.shouldRetry e attempt) then (.error e, 1)
      else
        let next := retryGo op opts fuel (attempt + 1) (delay * opts.backoffMultiplier)
        (next.1, next.2 + 1)

/-- `RetryManager.execute(operation, options)`: result plus the number of
times the operation was invoked.  With `maxAttempts = 0` the loop body
never runs and the trailing `throw lastError!` throws an undefined
variable. -/
def retryExecute (op : Nat → Except JsError α) (opts : RetryOptions) :
    Except JsError α × Nat :=
  if opts.maxAttempts = 0 then
    (.error ⟨"ReferenceError", "lastError is not defined", ""⟩, 0)
  else retryGo op opts opts.maxAttempts 1 opts.delay

/-- The three `CircuitBreaker` states. -/
inductive CBSt where
  | closedSt | openSt | halfOpenSt
deriving Repr, DecidableEq

/-- `getState()` string of each state. -/
def CBSt.toStr : CBSt → String
  | .closedSt => "CLOSED"
  | .openSt => "OPEN"
  | .halfOpenSt => "HALF_OPEN"

/-- `CircuitBreakerOptions` (all required after defaulting). -/
structure CBOptions where
  failureThreshold : Nat
  resetTimeout : Nat
  monitoringPeriod : Nat
deriving Repr

/-- `CircuitBreaker` mutable state. -/
structure CB where
  state : CBSt
  failures : Nat
  lastFailureTime : Int
  successCount : Nat
deriving Repr, DecidableEq

/-- Initial breaker state. -/
def CB.init : CB := ⟨.closedSt, 0, 0, 0⟩

/-- `CircuitBreaker.onSuccess`: zero the failure counter; while half-open,
count successes and close on reaching the third. -/
def cbOnSuccess (cb : CB) : CB :=
  if cb.state = .halfOpenSt then
    if cb.successCount + 1 ≥ 3 then
      { cb with failures := 0, successCount := cb.successCount + 1, state := .closedSt }
    else { cb with failures := 0, successCount := cb.successCount + 1 }
  else { cb with failures := 0 }

/-- `CircuitBreaker.onFailure`: bump the failure counter, stamp the
failure time, and open the breaker when the (incremented) counter reaches
the threshold. -/
def cbOnFailure (opts : CBOptions) (cb : CB) (now : Int) : CB :=
  if cb.failures + 1 ≥ opts.failureThreshold then
    { cb with failures := cb.failures + 1, lastFailureTime := now, state := .openSt }
  else { cb with failures := cb.failures + 1, lastFailureTime := now }

/-- The `try`/`catch` body of `CircuitBreaker.execute` once the call is
allowed through. -/
def cbRun (opts : CBOptions) (cb : CB) (now : Int) (opResult : Except JsError α) :
    CB × Except JsError α :=
  match opResult with
  | .ok v => (cbOnSuccess cb, .ok v)
  | .error e => (cbOnFailure opts cb now, .error e)

/-- `CircuitBreaker.execute(operation)` at time `now`, with the wrapped
operation's outcome given by `opResult` (which the breaker only consumes
in the branches where the code actually invokes the operation). -/
def cbExecute (opts : CBOptions) (cb : CB) (now : Int) (opResult : Except JsError α) :
    CB × Except JsError α :=
  if cb.state = .openSt then
    if now - cb.lastFailureTime ≥ opts.resetTimeout then
      cbRun opts { cb with state := .halfOpenSt, successCount := 0 } now opResult
    else (cb, .error ⟨"Error", "Circuit breaker is OPEN", ""⟩)
  else cbRun opts cb now opResult

/-- `GracefulDegradation.executeWithFallback(service, operation)` with the
registered health check's current answer (if any), the registered fallback
(if any), and the operation's outcome.  A registered unhealthy answer
throws before the operation runs; any failure is routed to the fallback
when one exists, whose own outcome (including a throw) is final. -/
def executeWithFallback (service : String) (healthAnswer : Option Bool)
    (fallback : Option (Unit → Except JsError α)) (opResult : Except JsError α) :
    Except JsError α :=
  let tryResult : Except JsError α :=
    match healthAnswer with
    | some false => .error ⟨"Error", "Service " ++ service ++ " is unhealthy", ""⟩
    | _ => opResult
  match tryResult with
  | .ok v => .ok v
  | .error e =>
    match fallback with
    | some f => f ()
    | none => .error e

/-- `JSON.stringify(context, null, 2)` on the flat string-valued context
object `ErrorContext` builds. -/
def contextJson (entries : List (String × String)) : String :=
  match entries with
  | [] => lbr ++ rbr
  | _ =>
    lbr ++ "\n"
      ++ String.intercalate ",\n"
        (entries.map (fun kv =>
          "  \"" ++ jsonEscape kv.1 ++ "\": \"" ++ jsonEscape kv.2 ++ "\""))
      ++ "\n" ++ rbr

/-- `ErrorContext.wrapError(error, additionalContext)`: a **new** plain
`Error` whose message is the original message with the serialized context
appended, and whose `stack` is copied from the original. -/
def wrapError (e : JsError) (context : List (String × String)) : JsError :=
  ⟨"Error", e.message ++ "\nContext: " ++ contextJson context, e.stack⟩

/-- Boolean prefix test on character lists. -/
def listIsPrefixB : List Char → List Char → Bool
  | [], _ => true
  | _ :: _, [] => false
  | a :: as, b :: bs => a == b && listIsPrefixB as bs

/-- Boolean contiguous-substring test on character lists. -/
def listIsInfixB (needle : List Char) : List Char → Bool
  | [] => listIsPrefixB needle []
  | c :: cs => listIsPrefixB needle (c :: cs) || listIsInfixB needle cs

/-- `String.prototype.includes`. -/
def strIncludes (s sub : String) : Bool := listIsInfixB sub.toList s.toList

/-- The `shouldRetry` that `loadConfigWithRecovery` passes to the retry
manager: refuse on messages that look like parse/syntax errors, else
retry while `attempt < 3`. -/
def recoveryShouldRetry : JsError → Nat → Bool := fun e attempt =>
  if strIncludes e.message "SyntaxError" || strIncludes e.message "parse" then false
  else attempt < 3

/-- `ConfigRecoveryManager` state (the nested retry manager and
degradation registry are stateless for this flow). -/
structure RecoveryManager where
  cb : CB
  lastKnownGoodConfig : Option JValue
deriving Repr

/-- Fresh manager with the default breaker options. -/
def RecoveryManager.init : RecoveryManager := ⟨CB.init, none⟩

/-- The breaker options the constructor installs when none are given. -/
def defaultCBOptions : CBOptions := ⟨5, 30000, 60000⟩

/-- `ConfigRecoveryManager.loadConfigWithRecovery(loader)` (no caller in
the claims passes `retryOptions`): degradation wraps the breaker wraps the
retry loop; on overall success the result becomes the last known good
configuration; on overall failure the error is wrapped with the
context (`operation`, ISO `timestamp` string `ts`, and the breaker state
*after* the failing call). -/
def loadConfigWithRecovery (mgr : RecoveryManager)
    (loader : Nat → Except JsError JValue) (now : Int) (ts : String) :
    RecoveryManager × Except JsError JValue :=
  let retryResult := (retryExecute loader ⟨3, 1000, 2, 30000, recoveryShouldRetry⟩).1
  let cbPair := cbExecute defaultCBOptions mgr.cb now retryResult
  let fallback : Unit → Except JsError JValue := fun _ =>
    match mgr.lastKnownGoodConfig with
    | some c => .ok c
    | none => .error ⟨"Error", "No fallback configuration available", ""⟩
  match executeWithFallback "config-load" none (some fallback) cbPair.2 with
  | .ok config => (⟨cbPair.1, some config⟩, .ok config)
  | .error e =>
    ({ mgr with cb := cbPair.1 },
     .error (wrapError e
       [("operation", "config-load"), ("timestamp", ts),
        ("circuitBreakerState", cbPair.1.state.toStr)]))

/-! ## `src/core/config-manager.ts`: `reload` -/

/-- One discovered configuration file as fed into a reload: its path and
environment flags come from `findConfigFiles`, and `loadResult` is the
combined outcome of `loader.loadFile` plus `parseConfigContent`
(parse errors and strict env-resolution errors both surface here as the
thrown message). -/
structure FileInput where
  path : String
  isEnvFile : Bool
  environment : Option String
  loadResult : Except String JValue

/-- The `ConfigManager` state that `reload` touches. -/
structure CMState where
  config : JValue
  isLoading : Bool
  fileContents : List (String × JValue)
  snapshotMgr : Option SM

/-- Events `reload` can emit. -/
inductive CMEvent where
  | loadedEv (c : JValue)
  | changeEv (cs : List ConfigChange)
  | errorEv (msg : String)
  | reloadEv
deriving Repr

/-- One pass of the load-and-merge loops of `reload`: load each file in
order (stopping at the first failure, with the contents read so far
already recorded in `fileContents`), record its parsed content, and merge
it into the accumulator — unconditionally for base files, and only for a
matching environment on the environment pass. -/
def loadPass (mergeFn : JValue → JValue → JValue) (env : Option String)
    (envPass : Bool) :
    List FileInput → List (String × JValue) → JValue →
    List (String × JValue) × Except String JValue
  | [], fc, acc => (fc, .ok acc)
  | f :: rest, fc, acc =>
    match f.loadResult with
    | .error e => (fc, .error e)
    | .ok parsed =>
      let fc2 := mapSet fc f.path parsed
      let acc2 :=
        if envPass then
          if f.environment = env then mergeFn acc parsed else acc
        else mergeFn acc parsed
      loadPass mergeFn env envPass rest fc2 acc2

/-- JS `Object.keys(v).length` under the truthiness guard
`this.config && Object.keys(this.config).length > 0`. -/
def jsKeyCount : JValue → Nat
  | .jobj kvs => kvs.length
  | .jarr xs => xs.length
  | .jstr s => s.length
  | _ => 0

/-- General JS truthiness on our value model. -/
def jsTruthy : JValue → Bool
  | .jnull => false
  | .jbool b => b
  | .jnum n => n != 0
  | .jstr s => s != ""
  | .jarr _ => true
  | .jobj _ => true

/-- `ConfigManager.reload()`.  Inputs that the method reads from the
instance or its collaborators are passed explicitly: the defaults, the
discovered `files` with their load outcomes, the `validate` option, the
merge function realizing the configured merge strategy (`lodash.merge`
for the default deep strategy — an external dependency), the active
environment and the clock.  Returns the new state, the events emitted in
order, and the method's own outcome (it rethrows after emitting
`error`). -/
def reload (st : CMState) (defaults : JValue) (files : List FileInput)
    (validate : JValue → Bool) (mergeFn : JValue → JValue → JValue)
    (env : Option String) (now : Nat) :
    CMState × List CMEvent × Except String Unit :=
  if st.isLoading then (st, [], .ok ())
  else
    let baseFiles := files.filter (fun f => !f.isEnvFile)
    let envFiles := files.filter (fun f => f.isEnvFile)
    let pass1 := loadPass mergeFn env false baseFiles st.fileContents (cloneDeep defaults)
    match pass1.2 with
    | .error e =>
      ({ st with fileContents := pass1.1, isLoading := false }, [.errorEv e], .error e)
    | .ok cfgBase =>
      let pass2 := loadPass mergeFn env true envFiles pass1.1 cfgBase
      match pass2.2 with
      | .error e =>
        ({ st with fileContents := pass2.1, isLoading := false }, [.errorEv e], .error e)
      | .ok newConfig =>
        if validate newConfig = false then
          ({ st with fileContents := pass2.1, isLoading := false },
           [.errorEv "Configuration validation failed"],
           .error "Configuration validation failed")
        else
          let snapMgr :=
            match st.snapshotMgr with
            | some sm =>
              if jsTruthy st.config && jsKeyCount st.config > 0 then
                some (SM.create sm ("auto-" ++ toString now) st.config
                  (some "Auto-snapshot before reload") now).1
              else some sm
            | none => none
          let changes := detectChanges (some st.config) (some newConfig) "reload" env now
          (⟨newConfig, false, pass2.1, snapMgr⟩,
           [.loadedEv newConfig]
             ++ (if changes.length > 0 then [.changeEv changes] else [])
             ++ [.reloadEv],
           .ok ())

/-! ## Shared helper lemmas -/

theorem mapGet_cons {β : Type} (kv : String × β) (rest : List (String × β)) (k : String) :
    mapGet (kv :: rest) k = if kv.1 == k then some kv.2 else mapGet rest k := by
  unfold mapGet
  cases hk : kv.1 == k with
  | true => simp [List.find?, hk]
  | false => simp [List.find?, hk]

theorem mapGet_mapSet_self {β : Type} (kvs : List (String × β)) (k : String) (v : β) :
    mapGet (mapSet kvs k v) k = some v := by
  unfold mapSet
  by_cases h : kvs.any (fun kv => kv.1 == k)
  · rw [if_pos h]
    induction kvs with
    | nil => simp at h
    | cons kv rest ih =>
      cases hk : kv.1 == k with
      | true =>
        have hkk : kv.1 = k := by simpa using hk
        simp [mapGet_cons, hk, hkk]
      | false =>
        simp only [List.any_cons, hk, Bool.false_or] at h
        simp only [List.map_cons, hk, Bool.false_eq_true, if_false, mapGet_cons]
        exact ih h
  · rw [if_neg h]
    induction kvs with
    | nil => simp [mapGet_cons]
    | cons kv rest ih =>
      simp only [List.any_cons, Bool.or_eq_true, not_or] at h
      simp only [List.cons_append, mapGet_cons]
      rw [if_neg (by simp_all)]
      exact ih (by simp_all)

theorem mapGet_mapSet_ne {β : Type} (kvs : List (String × β)) (k j : String) (v : β)
    (h : j ≠ k) : mapGet (mapSet kvs k v) j = mapGet kvs j := by
  unfold mapSet
  by_cases hexists : kvs.any (fun kv => kv.1 == k)
  · rw [if_pos hexists]
    clear hexists
    induction kvs with
    | nil => simp
    | cons kv rest ih =>
      cases hk : kv.1 == k with
      | true =>
        have hkk : kv.1 = k := by simpa using hk
        simp only [List.map_cons, hk, if_pos, mapGet_cons]
        rw [if_neg (by simp [h.symm]), if_neg (by simp [hkk, h.symm])]
        exact ih
      | false =>
        simp only [List.map_cons, hk, Bool.false_eq_true, if_false, mapGet_cons]
        cases hj : kv.1 == j with
        | true => simp
        | false => exact ih
  · rw [if_neg hexists]
    clear hexists
    induction kvs with
    | nil => simp [mapGet_cons, h.symm, mapGet]
    | cons kv rest ih =>
      simp only [List.cons_append, mapGet_cons]
      cases hj : kv.1 == j with
      | true => simp
      | false => exact ih

theorem mapSet_keys_of_mem {β : Type} (kvs : List (String × β)) (k : String) (v : β)
    (h : kvs.any (fun kv => kv.1 == k) = true) :
    (mapSet kvs k v).map Prod.fst = kvs.map Prod.fst := by
  unfold mapSet
  rw [if_pos h]
  clear h
  induction kvs with
  | nil => simp
  | cons kv rest ih =>
    simp only [List.map_cons, ih]
    congr 1
    cases hk : kv.1 == k with
    | true =>
      have : kv.1 = k := by simpa using hk
      simp [this]
    | false =>
      have : ¬(kv.1 = k) := by simpa using hk
      simp [this]

theorem mapGet_isSome_any {β : Type} (kvs : List (String × β)) (k : String) (b : β)
    (h : mapGet kvs k = some b) : kvs.any (fun kv => kv.1 == k) = true := by
  induction kvs with
  | nil => simp [mapGet, List.find?] at h
  | cons kv rest ih =>
    rw [mapGet_cons] at h
    cases hk : kv.1 == k with
    | true => simp [hk]
    | false =>
      rw [hk, if_neg (by simp)] at h
      simp [hk, ih h]

/-- The first-match removal of `mapDelete` removes exactly the entry that
`mapGet` finds, so any mapped sum loses that entry's contribution once. -/
theorem sum_mapDelete_int {β : Type} (f : β → Int) :
    ∀ (kvs : List (String × β)) (k : String) (e : β),
      mapGet kvs k = some e →
      ((mapDelete kvs k).map (fun kv => f kv.2)).sum
        = ((kvs.map (fun kv => f kv.2)).sum) - f e := by
  intro kvs
  induction kvs with
  | nil => intro k e h; simp [mapGet, List.find?] at h
  | cons kv rest ih =>
    intro k e h
    rw [mapGet_cons] at h
    cases hk : kv.1 == k with
    | true =>
      rw [hk, if_pos rfl] at h
      cases h
      unfold mapDelete
      simp only [List.eraseP_cons, hk, cond_true]
      simp
    | false =>
      rw [hk, if_neg (by simp)] at h
      unfold mapDelete
      simp only [List.eraseP_cons, hk, cond_false]
      simp only [List.map_cons, List.sum_cons]
      have := ih k e h
      unfold mapDelete at this
      rw [this]
      ring

/-- Any reserved segment anywhere in the key list short-circuits `setPath`
to the untouched original root. -/
theorem setPathKeys_reserved (obj : JValue) (keys : List String) (v : JValue)
    (h : ∃ k ∈ keys, reservedKey k = true) : setPathKeys obj keys v = obj := by
  unfold setPathKeys
  have hany : keys.any reservedKey = true := by
    obtain ⟨k, hk, hr⟩ := h
    exact List.any_eq_true.mpr ⟨k, hk, hr⟩
  by_cases ho : isTruthyObject obj
  · simp [ho, hany]
  · simp [ho]

/-! ## Claim theorems -/

/-- C1: for every object root, every value, and every path (dotted string
or key sequence) in which some segment equals `__proto__`, `constructor`
or `prototype`, `setPath(root, path, value)` returns the root unchanged
and writes nothing; in particular `setPath({}, "__proto__.polluted",
true)` returns `{}` and no object gains a `polluted` property (the result
is the untouched root, and in this pure model nothing else exists to be
written to — there is no shared prototype object). -/
theorem setPath_reserved_segment_noop :
    (∀ (obj : JValue) (keys : List String) (v : JValue),
      (∃ k ∈ keys, reservedKey k = true) → setPathKeys obj keys v = obj)
    ∧ (∀ (obj : JValue) (path : String) (v : JValue),
      (∃ k ∈ splitDot path, reservedKey k = true) → setPath obj path v = obj)
    ∧ setPath (.jobj []) "__proto__.polluted" (.jbool true) = .jobj []
    ∧ mapGet (jsSpread (setPath (.jobj []) "__proto__.polluted" (.jbool true))) "polluted"
        = none := by
  refine ⟨setPathKeys_reserved, ?_, ?_, ?_⟩
  · intro obj path v h
    exact setPathKeys_reserved obj (splitDot path) v h
  · exact setPathKeys_reserved (.jobj []) (splitDot "__proto__.polluted") (.jbool true)
      ⟨"__proto__", by decide, by decide⟩
  · rfl

/-- Witness for C1 at the spec's concrete input. -/
theorem setPath_reserved_segment_noop_witness :
    setPathKeys (JValue.jobj []) ["__proto__", "polluted"] (.jbool true) = .jobj [] :=
  setPath_reserved_segment_noop.1 (.jobj []) ["__proto__", "polluted"] (.jbool true)
    ⟨"__proto__", by decide, by decide⟩

/-- C3 counterexample: with `maxAttempts: 4` and no explicit `shouldRetry`,
an always-failing operation is invoked 3 times (the default `shouldRetry`
is the literal `attempt < 3`), not `maxAttempts = 4` times as claimed. -/
theorem retry_counterexample :
    (retryExecute (fun _ => (.error ⟨"Error", "boom", ""⟩ : Except JsError JValue))
        (retryOptionsWithMaxAttempts 4)).2 = 3
    ∧ (3 : Nat) ≠ 4 := ⟨rfl, by decide⟩

/-- C3 amended: for every `maxAttempts ≥ 1`, `RetryManager.execute` with
options `{maxAttempts}` and no explicit `shouldRetry` invokes an
always-failing operation exactly `min maxAttempts 3` times (the default
`shouldRetry` permits retry only for attempt numbers strictly below the
literal 3) and then rethrows the last error. -/
theorem retryGo_stop {α : Type} (op : Nat → Except JsError α) (opts : RetryOptions)
    (fuel att delay : Nat) (e : JsError) (hop : op att = .error e)
    (hstop : (decide (att = opts.maxAttempts) || !opts.shouldRetry e att) = true) :
    retryGo op opts (fuel + 1) att delay = (.error e, 1) := by
  rw [retryGo, hop]
  simp only [hstop, if_pos]

theorem retryGo_step {α : Type} (op : Nat → Except JsError α) (opts : RetryOptions)
    (fuel att delay : Nat) (e : JsError) (hop : op att = .error e)
    (hcont : (decide (att = opts.maxAttempts) || !opts.shouldRetry e att) = false) :
    retryGo op opts (fuel + 1) att delay
      = ((retryGo op opts fuel (att + 1) (delay * opts.backoffMultiplier)).1,
         (retryGo op opts fuel (att + 1) (delay * opts.backoffMultiplier)).2 + 1) := by
  rw [retryGo, hop]
  simp only [hcont, Bool.false_eq_true, if_false]

theorem retry_default_invocation_count :
    ∀ (n : Nat) (e : JsError), 1 ≤ n →
      retryExecute (fun _ => (.error e : Except JsError JValue))
          (retryOptionsWithMaxAttempts n)
        = (.error e, min n 3) := by
  intro n e h1
  match n, h1 with
  | 1, _ => rfl
  | 2, _ => rfl
  | (m + 3), _ =>
    have hmax : (retryOptionsWithMaxAttempts (m + 3)).maxAttempts = m + 3 := rfl
    have hsr : (retryOptionsWithMaxAttempts (m + 3)).shouldRetry = defaultShouldRetry := rfl
    have hstep1 : (decide (1 = (retryOptionsWithMaxAttempts (m + 3)).maxAttempts)
        || !(retryOptionsWithMaxAttempts (m + 3)).shouldRetry e 1) = false := by
      rw [hmax, hsr]
      simp [defaultShouldRetry]
    have hstep2 : (decide (2 = (retryOptionsWithMaxAttempts (m + 3)).maxAttempts)
        || !(retryOptionsWithMaxAttempts (m + 3)).shouldRetry e 2) = false := by
      rw [hmax, hsr]
      simp [defaultShouldRetry]
    have hstop3 : (decide (3 = (retryOptionsWithMaxAttempts (m + 3)).maxAttempts)
        || !(retryOptionsWithMaxAttempts (m + 3)).shouldRetry e 3) = true := by
      rw [hmax, hsr]
      simp [defaultShouldRetry]
    have hrun : retryExecute (fun _ => (.error e : Except JsError JValue))
        (retryOptionsWithMaxAttempts (m + 3))
        = retryGo (fun _ => (.error e : Except JsError JValue))
            (retryOptionsWithMaxAttempts (m + 3)) (m + 3) 1 1000 := by
      unfold retryExecute
      rw [if_neg (by rw [hmax]; omega)]
      rfl
    rw [hrun,
      show m + 3 = (m + 2) + 1 from rfl,
      retryGo_step _ _ (m + 2) 1 1000 e rfl hstep1,
      show m + 2 = (m + 1) + 1 from rfl,
      retryGo_step _ _ (m + 1) 2 _ e rfl hstep2,
      show m + 1 = m + 1 from rfl,
      retryGo_stop _ _ m 3 _ e rfl hstop3,
      show min (m + 3) 3 = 3 by omega]

/-- Witness for C3 (amended) at `maxAttempts = 5`. -/
theorem retry_default_invocation_count_witness :
    retryExecute (fun _ => (.error ⟨"Error", "boom", ""⟩ : Except JsError JValue))
        (retryOptionsWithMaxAttempts 5)
      = (.error ⟨"Error", "boom", ""⟩, min 5 3) :=
  retry_default_invocation_count 5 ⟨"Error", "boom", ""⟩ (by decide)

/-- C4 counterexample: a breaker with `failureThreshold: 2` is opened by
two failures, goes HalfOpen on a successful trial after the reset
timeout, and then a failure while HalfOpen (preceded by that one success)
leaves it HalfOpen — it does not transition back to Open. -/
theorem circuit_breaker_counterexample :
    (cbExecute ⟨2, 1000, 5000⟩
      (cbExecute ⟨2, 1000, 5000⟩
        (cbExecute ⟨2, 1000, 5000⟩
          (cbExecute ⟨2, 1000, 5000⟩ CB.init 0
            (.error ⟨"Error", "boom", ""⟩ : Except JsError JValue)).1 0
          (.error ⟨"Error", "boom", ""⟩ : Except JsError JValue)).1 1000
        (.ok .jnull : Except JsError JValue)).1 1000
      (.error ⟨"Error", "boom", ""⟩ : Except JsError JValue)).1.state
      = CBSt.halfOpenSt
    ∧ CBSt.halfOpenSt ≠ CBSt.openSt := ⟨rfl, by decide⟩

/-- C4 amended: whenever the breaker is HalfOpen and the wrapped operation
fails, the failure timestamp is recorded and the error rethrown, but the
breaker transitions back to Open **iff** the incremented consecutive-failure
counter reaches `failureThreshold` (otherwise it stays HalfOpen).  Since
`onSuccess` zeroes the counter, a failure preceded by one or two HalfOpen
successes leaves the breaker HalfOpen whenever `failureThreshold ≥ 2`. -/
theorem circuit_breaker_halfopen_failure :
    ∀ (opts : CBOptions) (cb : CB) (now : Int) (e : JsError),
      cb.state = .halfOpenSt →
      (cbExecute opts cb now (.error e : Except JsError JValue)).2 = .error e
      ∧ (cbExecute opts cb now (.error e : Except JsError JValue)).1.failures
          = cb.failures + 1
      ∧ (cbExecute opts cb now (.error e : Except JsError JValue)).1.lastFailureTime = now
      ∧ ((cbExecute opts cb now (.error e : Except JsError JValue)).1.state = .openSt
          ↔ opts.failureThreshold ≤ cb.failures + 1)
      ∧ ((cbExecute opts cb now (.error e : Except JsError JValue)).1.state = .openSt
          ∨ (cbExecute opts cb now (.error e : Except JsError JValue)).1.state
              = .halfOpenSt) := by
  intro opts cb now e hhalf
  have hrun : cbExecute opts cb now (.error e : Except JsError JValue)
      = (cbOnFailure opts cb now, .error e) := by
    unfold cbExecute
    rw [if_neg (by rw [hhalf]; decide)]
    rfl
  rw [hrun]
  unfold cbOnFailure
  by_cases hth : cb.failures + 1 ≥ opts.failureThreshold
  · rw [if_pos hth]
    exact ⟨rfl, rfl, rfl, ⟨fun _ => hth, fun _ => rfl⟩, Or.inl rfl⟩
  · rw [if_neg hth]
    refine ⟨rfl, rfl, rfl, ⟨?_, ?_⟩, Or.inr hhalf⟩
    · intro hst
      have hst2 : cb.state = .openSt := hst
      rw [hhalf] at hst2
      exact absurd hst2 (by decide)
    · intro hle
      exact absurd hle hth

/-- Witness for C4 (amended): HalfOpen breaker with threshold 2 and a
zeroed failure counter (as after one HalfOpen success); a failure keeps it
HalfOpen. -/
theorem circuit_breaker_halfopen_failure_witness :
    (cbExecute ⟨2, 1000, 5000⟩ ⟨.halfOpenSt, 0, 0, 1⟩ 7
        (.error ⟨"Error", "boom", ""⟩ : Except JsError JValue)).2
      = .error ⟨"Error", "boom", ""⟩
    ∧ (cbExecute ⟨2, 1000, 5000⟩ ⟨.halfOpenSt, 0, 0, 1⟩ 7
        (.error ⟨"Error", "boom", ""⟩ : Except JsError JValue)).1.failures = 0 + 1
    ∧ (cbExecute ⟨2, 1000, 5000⟩ ⟨.halfOpenSt, 0, 0, 1⟩ 7
        (.error ⟨"Error", "boom", ""⟩ : Except JsError JValue)).1.lastFailureTime = 7
    ∧ ((cbExecute ⟨2, 1000, 5000⟩ ⟨.halfOpenSt, 0, 0, 1⟩ 7
        (.error ⟨"Error", "boom", ""⟩ : Except JsError JValue)).1.state = .openSt
          ↔ (2 : Nat) ≤ 0 + 1)
    ∧ ((cbExecute ⟨2, 1000, 5000⟩ ⟨.halfOpenSt, 0, 0, 1⟩ 7
        (.error ⟨"Error", "boom", ""⟩ : Except JsError JValue)).1.state = .openSt
        ∨ (cbExecute ⟨2, 1000, 5000⟩ ⟨.halfOpenSt, 0, 0, 1⟩ 7
          (.error ⟨"Error", "boom", ""⟩ : Except JsError JValue)).1.state = .halfOpenSt) :=
  circuit_breaker_halfopen_failure ⟨2, 1000, 5000⟩ ⟨.halfOpenSt, 0, 0, 1⟩ 7
    ⟨"Error", "boom", ""⟩ rfl

/-- C7 counterexample: two snapshots created from deep-equal
configurations that list their keys in different orders; `compare` reports
`identical: false` because it compares JSON serializations, which are
key-order-sensitive. -/
theorem snapshot_compare_counterexample :
    deepEqualB (.jobj [("a", .jnum 1), ("b", .jnum 2)])
        (.jobj [("b", .jnum 2), ("a", .jnum 1)]) = true
    ∧ (SM.compare
        (SM.create
          (SM.create (SM.init 50) "s1" (.jobj [("a", .jnum 1), ("b", .jnum 2)]) none 0).1
          "s2" (.jobj [("b", .jnum 2), ("a", .jnum 1)]) none 1).1
        "s1" "s2").identical = false := ⟨rfl, rfl⟩

/-- C7 amended: `compare(id1, id2)` reports `identical: false` whenever
either id is absent; when both are present it reports `identical: true`
iff the stored configurations have equal compact JSON serializations — a
key-order-sensitive test, so deep-equal configurations with the same key
order (in particular, equal stored values) compare identical, while
deep-equal configurations with different key orders need not. -/
theorem snapshot_compare_spec :
    ∀ (m : SM) (id1 id2 : String),
      ((mapGet m.snapshots id1 = none ∨ mapGet m.snapshots id2 = none) →
        (SM.compare m id1 id2).identical = false)
      ∧ (∀ s1 s2, mapGet m.snapshots id1 = some s1 → mapGet m.snapshots id2 = some s2 →
          ((SM.compare m id1 id2).identical = true ↔
            jsonStringify s1.config = jsonStringify s2.config))
      ∧ (∀ s1 s2, mapGet m.snapshots id1 = some s1 → mapGet m.snapshots id2 = some s2 →
          s1.config = s2.config → (SM.compare m id1 id2).identical = true) := by
  intro m id1 id2
  refine ⟨?_, ?_, ?_⟩
  · intro h
    rcases h with h | h
    · rcases h2 : mapGet m.snapshots id2 with _ | s2 <;>
        simp [SM.compare, h, h2]
    · rcases h1 : mapGet m.snapshots id1 with _ | s1 <;>
        simp [SM.compare, h, h1]
  · intro s1 s2 h1 h2
    simp [SM.compare, h1, h2]
  · intro s1 s2 h1 h2 heq
    simp [SM.compare, h1, h2, heq]

/-- Witness for C7 (amended) on concrete snapshots. -/
theorem snapshot_compare_spec_witness :
    ((mapGet (SM.create (SM.init 50) "s1" (.jnum 1) none 0).1.snapshots "s1" = none
        ∨ mapGet (SM.create (SM.init 50) "s1" (.jnum 1) none 0).1.snapshots "zz" = none) →
      (SM.compare (SM.create (SM.init 50) "s1" (.jnum 1) none 0).1 "s1" "zz").identical
        = false) := by
  have h := (snapshot_compare_spec (SM.create (SM.init 50) "s1" (.jnum 1) none 0).1
    "s1" "zz").1
  exact h

/-- C8 counterexample: creating ids `a`, `b`, then `a` again (capacity 5)
leaves `list()` as `["a", "b", "a"]` — the reused id occurs twice, so
"each id occurs at most once in list()" fails. -/
theorem snapshot_create_duplicate_counterexample :
    SM.list (SM.create (SM.create (SM.create (SM.init 5) "a" (.jnum 1) none 0).1
        "b" (.jnum 2) none 1).1 "a" (.jnum 3) none 2).1
      = ["a", "b", "a"]
    ∧ (SM.list (SM.create (SM.create (SM.create (SM.init 5) "a" (.jnum 1) none 0).1
        "b" (.jnum 2) none 1).1 "a" (.jnum 3) none 2).1).count "a" = 2 := ⟨rfl, rfl⟩

/-- C8 amended: below capacity, re-creating an existing id overwrites that
snapshot's config, timestamp and description **in place in the id-keyed
map** (no other id's entry or map position changes), but the id is pushed
onto the creation-order history again, so it occupies both its original
position and a new final position in `list()` (which therefore lists it
twice); the relative order of all previously recorded history entries is
unchanged. -/
theorem snapshot_create_existing_id :
    ∀ (m : SM) (id : String) (cfg : JValue) (desc : Option String) (now : Nat)
      (old : Snapshot),
      mapGet m.snapshots id = some old →
      m.snapshots.length < m.maxSnapshots →
      (SM.create m id cfg desc now).1.history = m.history ++ [id]
      ∧ (SM.create m id cfg desc now).1.snapshots.map Prod.fst
          = m.snapshots.map Prod.fst
      ∧ mapGet (SM.create m id cfg desc now).1.snapshots id
          = some ⟨id, now, cloneDeep cfg, desc⟩
      ∧ (∀ j, j ≠ id →
          mapGet (SM.create m id cfg desc now).1.snapshots j = mapGet m.snapshots j) := by
  intro m id cfg desc now old hold hcap
  unfold SM.create
  rw [if_neg (by omega)]
  refine ⟨rfl, ?_, ?_, ?_⟩
  · exact mapSet_keys_of_mem m.snapshots id _ (mapGet_isSome_any m.snapshots id old hold)
  · exact mapGet_mapSet_self m.snapshots id _
  · intro j hj
    exact mapGet_mapSet_ne m.snapshots id j _ hj

/-- Witness for C8 (amended) on a concrete manager. -/
theorem snapshot_create_existing_id_witness :
    (SM.create (SM.create (SM.init 5) "a" (.jnum 1) none 0).1 "a" (.jnum 3) none 2).1.history
      = (SM.create (SM.init 5) "a" (.jnum 1) none 0).1.history ++ ["a"]
    ∧ (SM.create (SM.create (SM.init 5) "a" (.jnum 1) none 0).1
        "a" (.jnum 3) none 2).1.snapshots.map Prod.fst
      = (SM.create (SM.init 5) "a" (.jnum 1) none 0).1.snapshots.map Prod.fst
    ∧ mapGet (SM.create (SM.create (SM.init 5) "a" (.jnum 1) none 0).1
        "a" (.jnum 3) none 2).1.snapshots "a"
      = some ⟨"a", 2, cloneDeep (.jnum 3), none⟩
    ∧ (∀ j, j ≠ "a" →
        mapGet (SM.create (SM.create (SM.init 5) "a" (.jnum 1) none 0).1
          "a" (.jnum 3) none 2).1.snapshots j
        = mapGet (SM.create (SM.init 5) "a" (.jnum 1) none 0).1.snapshots j) :=
  snapshot_create_existing_id (SM.create (SM.init 5) "a" (.jnum 1) none 0).1
    "a" (.jnum 3) none 2 ⟨"a", 0, .jnum 1, none⟩ rfl (by decide)

/-- C2: if a reload fails at any point — a file load/parse error
(surfacing in a `loadResult`), or the validate callback returning false —
the previously held configuration is exactly what it was before the
reload began (no partially merged configuration is committed), an error
notification is the only event emitted, and in particular no change
notification is emitted for that reload. -/
theorem reload_failure_atomic :
    ∀ (st : CMState) (defaults : JValue) (files : List FileInput)
      (validate : JValue → Bool) (mergeFn : JValue → JValue → JValue)
      (env : Option String) (now : Nat) (e : String),
      st.isLoading = false →
      (reload st defaults files validate mergeFn env now).2.2 = .error e →
      (reload st defaults files validate mergeFn env now).1.config = st.config
      ∧ (reload st defaults files validate mergeFn env now).2.1 = [.errorEv e]
      ∧ ∀ cs, CMEvent.changeEv cs ∉ (reload st defaults files validate mergeFn env now).2.1 := by
  intro st defaults files validate mergeFn env now e hload herr
  revert herr
  unfold reload
  rw [if_neg (by simp [hload])]
  rcases h1 : (loadPass mergeFn env false (files.filter (fun f => !f.isEnvFile))
      st.fileContents (cloneDeep defaults)).2 with e1 | cfgBase
  · simp only [h1]
    intro herr
    obtain rfl : e1 = e := by injection herr
    simp
  · simp only [h1]
    rcases h2 : (loadPass mergeFn env true (files.filter (fun f => f.isEnvFile))
        (loadPass mergeFn env false (files.filter (fun f => !f.isEnvFile))
          st.fileContents (cloneDeep defaults)).1 cfgBase).2 with e2 | newConfig
    · simp only [h2]
      intro herr
      obtain rfl : e2 = e := by injection herr
      simp
    · simp only [h2]
      by_cases hv : validate newConfig = false
      · rw [if_pos hv]
        intro herr
        obtain rfl : "Configuration validation failed" = e := by injection herr
        simp
      · rw [if_neg hv]
        intro herr
        simp at herr

/-- Witness for C2: a reload whose validate callback rejects leaves the
configuration untouched and emits exactly one error event. -/
theorem reload_failure_atomic_witness :
    (reload ⟨.jobj [("p", .jnum 0)], false, [], none⟩ (.jobj [])
        [⟨"/c/config.json", false, none, .ok (.jobj [("p", .jnum 1)])⟩]
        (fun _ => false) (fun _ b => b) none 0).1.config = .jobj [("p", .jnum 0)]
    ∧ (reload ⟨.jobj [("p", .jnum 0)], false, [], none⟩ (.jobj [])
        [⟨"/c/config.json", false, none, .ok (.jobj [("p", .jnum 1)])⟩]
        (fun _ => false) (fun _ b => b) none 0).2.1
      = [.errorEv "Configuration validation failed"]
    ∧ ∀ cs, CMEvent.changeEv cs ∉ (reload ⟨.jobj [("p", .jnum 0)], false, [], none⟩ (.jobj [])
        [⟨"/c/config.json", false, none, .ok (.jobj [("p", .jnum 1)])⟩]
        (fun _ => false) (fun _ b => b) none 0).2.1 :=
  reload_failure_atomic ⟨.jobj [("p", .jnum 0)], false, [], none⟩ (.jobj [])
    [⟨"/c/config.json", false, none, .ok (.jobj [("p", .jnum 1)])⟩]
    (fun _ => false) (fun _ b => b) none 0 "Configuration validation failed" rfl rfl

/-- A retry loop over an operation that fails on every attempt produces an
error. -/
theorem retryGo_always_error {α : Type} (op : Nat → Except JsError α)
    (opts : RetryOptions) (hop : ∀ n, (op n).isOk = false) :
    ∀ (fuel att delay : Nat), ∃ e2 k, retryGo op opts fuel att delay = (.error e2, k) := by
  intro fuel
  induction fuel with
  | zero =>
    intro att delay
    exact ⟨⟨"ReferenceError", "lastError is not defined", ""⟩, 0, rfl⟩
  | succ n ih =>
    intro att delay
    rcases hatt : op att with e | v
    case ok =>
      have := hop att
      rw [hatt] at this
      simp [Except.isOk, Except.toBool] at this
    case error =>
      by_cases hc : (decide (att = opts.maxAttempts) || !opts.shouldRetry e att) = true
      · exact ⟨e, 1, by rw [retryGo_stop op opts n att delay e hatt hc]⟩
      · have hcf : (decide (att = opts.maxAttempts) || !opts.shouldRetry e att) = false := by
          simpa using hc
        obtain ⟨e2, k, he2⟩ := ih (att + 1) (delay * opts.backoffMultiplier)
        exact ⟨e2, k + 1, by rw [retryGo_step op opts n att delay e hatt hcf, he2]⟩

/-- `retryExecute` on an always-failing operation yields an error. -/
theorem retryExecute_always_error {α : Type} (op : Nat → Except JsError α)
    (opts : RetryOptions) (hop : ∀ n, (op n).isOk = false) :
    ∃ e2, (retryExecute op opts).1 = .error e2 := by
  unfold retryExecute
  by_cases h0 : opts.maxAttempts = 0
  · rw [if_pos h0]
    exact ⟨⟨"ReferenceError", "lastError is not defined", ""⟩, rfl⟩
  · rw [if_neg h0]
    obtain ⟨e2, k, he2⟩ := retryGo_always_error op opts hop opts.maxAttempts 1 opts.delay
    exact ⟨e2, by rw [he2]⟩

/-- The breaker never converts a failing operation into a success: fed an
error, `execute` rejects (with that error or the breaker-open error). -/
theorem cbExecute_error {α : Type} (opts : CBOptions) (cb : CB) (now : Int)
    (e : JsError) :
    ∃ e2, (cbExecute opts cb now (.error e : Except JsError α)).2 = .error e2 := by
  unfold cbExecute cbRun
  by_cases hst : cb.state = .openSt
  · rw [if_pos hst]
    by_cases ht : now - cb.lastFailureTime ≥ opts.resetTimeout
    · rw [if_pos ht]
      exact ⟨e, rfl⟩
    · rw [if_neg ht]
      exact ⟨⟨"Error", "Circuit breaker is OPEN", ""⟩, rfl⟩
  · rw [if_neg hst]
    exact ⟨e, rfl⟩

/-- C6 counterexample: a fresh `ConfigRecoveryManager` (no last known good
configuration) and a loader that always rejects with `boom`.  The finally
rejected error is a brand-new `Error` built from the *fallback's* failure:
its message does not even contain the loader's message, and its stack is
not the loader error's stack — the underlying error's identity and kind
are not preserved. -/
theorem recovery_wrap_counterexample :
    (loadConfigWithRecovery RecoveryManager.init
        (fun _ => .error ⟨"Error", "boom", "st"⟩) 0 "TS").2
      = .error ⟨"Error",
          "No fallback configuration available\nContext: \x7b\n  \"operation\": \"config-load\",\n  \"timestamp\": \"TS\",\n  \"circuitBreakerState\": \"CLOSED\"\n\x7d",
          ""⟩
    ∧ strIncludes
        "No fallback configuration available\nContext: \x7b\n  \"operation\": \"config-load\",\n  \"timestamp\": \"TS\",\n  \"circuitBreakerState\": \"CLOSED\"\n\x7d"
        "boom" = false
    ∧ (⟨"Error",
          "No fallback configuration available\nContext: \x7b\n  \"operation\": \"config-load\",\n  \"timestamp\": \"TS\",\n  \"circuitBreakerState\": \"CLOSED\"\n\x7d",
          ""⟩ : JsError)
        ≠ ⟨"Error", "boom", "st"⟩ := by
  refine ⟨rfl, by decide, by decide⟩

/-- C6 amended: when `loadConfigWithRecovery` exhausts all recovery
mechanisms (every loader attempt fails and no last-known-good
configuration is held), it rejects with a **new** plain `Error` whose
message is the fallback's `No fallback configuration available` message
with the diagnostic context appended (`operation`, `timestamp`, and the
circuit-breaker state at the time of failure); the loader's own error is
not propagated — neither its identity nor its kind survives. -/
theorem recovery_wrap_failure :
    ∀ (mgr : RecoveryManager) (loader : Nat → Except JsError JValue)
      (now : Int) (ts : String),
      mgr.lastKnownGoodConfig = none →
      (∀ n, (loader n).isOk = false) →
      (loadConfigWithRecovery mgr loader now ts).2
        = .error ⟨"Error",
            "No fallback configuration available" ++ "\nContext: "
              ++ contextJson
                [("operation", "config-load"), ("timestamp", ts),
                 ("circuitBreakerState",
                  (loadConfigWithRecovery mgr loader now ts).1.cb.state.toStr)],
            ""⟩
      ∧ (loadConfigWithRecovery mgr loader now ts).1.lastKnownGoodConfig = none := by
  intro mgr loader now ts hno hop
  obtain ⟨e1, he1⟩ := retryExecute_always_error loader
    ⟨3, 1000, 2, 30000, recoveryShouldRetry⟩ hop
  obtain ⟨e2, he2⟩ := @cbExecute_error JValue defaultCBOptions mgr.cb now e1
  unfold loadConfigWithRecovery executeWithFallback
  simp only [he1, he2, hno]
  exact ⟨rfl, trivial⟩

/-- Witness for C6 (amended) at the counterexample's input. -/
theorem recovery_wrap_failure_witness :
    (loadConfigWithRecovery RecoveryManager.init
        (fun _ => .error ⟨"Error", "boom", "st"⟩) 0 "TS").2
      = .error ⟨"Error",
          "No fallback configuration available" ++ "\nContext: "
            ++ contextJson
              [("operation", "config-load"), ("timestamp", "TS"),
               ("circuitBreakerState",
                (loadConfigWithRecovery RecoveryManager.init
                  (fun _ => .error ⟨"Error", "boom", "st"⟩) 0 "TS").1.cb.state.toStr)],
          ""⟩
    ∧ (loadConfigWithRecovery RecoveryManager.init
        (fun _ => .error ⟨"Error", "boom", "st"⟩) 0 "TS").1.lastKnownGoodConfig = none :=
  recovery_wrap_failure RecoveryManager.init (fun _ => .error ⟨"Error", "boom", "st"⟩)
    0 "TS" rfl (fun _ => rfl)

/-! Memory-accounting invariant of `EnhancedCache` (claim C10). -/

theorem sumSizes_nonneg (cache : List (String × ECEntry)) : 0 ≤ sumSizes cache := by
  unfold sumSizes
  induction cache with
  | nil => simp
  | cons kv rest ih =>
    simp only [List.map_cons, List.sum_cons]
    positivity

theorem sumSizes_append (a b : List (String × ECEntry)) :
    sumSizes (a ++ b) = sumSizes a + sumSizes b := by
  unfold sumSizes
  simp

theorem sumSizes_mapDelete (cache : List (String × ECEntry)) (k : String) (e : ECEntry)
    (h : mapGet cache k = some e) :
    sumSizes (mapDelete cache k) = sumSizes cache - e.size := by
  unfold sumSizes
  exact sum_mapDelete_int (fun en => (en.size : Int)) cache k e h

theorem ecDelete_inv (c : EC) (k : String) (h : c.currentMemory = sumSizes c.cache) :
    (ecDelete c k).1.currentMemory = sumSizes (ecDelete c k).1.cache := by
  unfold ecDelete
  rcases hg : mapGet c.cache k with _ | e
  · simpa using h
  · simp only []
    rw [h, sumSizes_mapDelete c.cache k e hg]

theorem ecEvictMem_inv (need maxMem : Nat) :
    ∀ (cache : List (String × ECEntry)) (cur : Int), cur = sumSizes cache →
      (ecEvictMem need maxMem cache cur).2 = sumSizes (ecEvictMem need maxMem cache cur).1 := by
  intro cache
  induction cache with
  | nil =>
    intro cur h
    simpa [ecEvictMem] using h
  | cons kv rest ih =>
    intro cur h
    unfold ecEvictMem
    by_cases hc : cur + (need : Int) > (maxMem : Int)
    · rw [if_pos hc]
      apply ih
      rw [h]
      unfold sumSizes
      simp
    · rw [if_neg hc]
      exact h

theorem ecEvictSize_inv (maxSize : Nat) :
    ∀ (cache : List (String × ECEntry)) (cur : Int), cur = sumSizes cache →
      (ecEvictSize maxSize cache cur).2 = sumSizes (ecEvictSize maxSize cache cur).1 := by
  intro cache
  induction cache with
  | nil =>
    intro cur h
    simpa [ecEvictSize] using h
  | cons kv rest ih =>
    intro cur h
    unfold ecEvictSize
    by_cases hc : rest.length + 1 ≥ maxSize
    · rw [if_pos hc]
      apply ih
      rw [h]
      unfold sumSizes
      simp
    · rw [if_neg hc]
      exact h

theorem ecEvictIfNeeded_inv (c : EC) (size : Nat)
    (h : c.currentMemory = sumSizes c.cache) :
    (ecEvictIfNeeded c size).currentMemory = sumSizes (ecEvictIfNeeded c size).cache := by
  unfold ecEvictIfNeeded
  exact ecEvictSize_inv c.maxSize _ _ (ecEvictMem_inv size c.maxMemory c.cache c.currentMemory h)

theorem ecSet_inv (c : EC) (k : String) (v : JValue) (now : Nat)
    (h : c.currentMemory = sumSizes c.cache) :
    (ecSet c k v now).currentMemory = sumSizes (ecSet c k v now).cache := by
  unfold ecSet
  by_cases hmem : estimateSize v > c.maxMemory
  · rw [if_pos hmem]
    exact h
  · rw [if_neg hmem]
    rcases hg : mapGet c.cache k with _ | e
    · simp only []
      rw [sumSizes_append, ecEvictIfNeeded_inv c (estimateSize v) h]
      unfold sumSizes
      simp
    · simp only []
      have h1 : c.currentMemory - (e.size : Int) = sumSizes (mapDelete c.cache k) := by
        rw [h, sumSizes_mapDelete c.cache k e hg]
      rw [sumSizes_append,
        ecEvictIfNeeded_inv ⟨mapDelete c.cache k, c.maxSize, c.ttl, c.maxMemory,
          c.currentMemory - e.size, c.hits, c.misses⟩ (estimateSize v) h1]
      unfold sumSizes
      simp

theorem ecGet_inv (c : EC) (k : String) (now : Nat)
    (h : c.currentMemory = sumSizes c.cache) :
    (ecGet c k now).1.currentMemory = sumSizes (ecGet c k now).1.cache := by
  unfold ecGet
  rcases hg : mapGet c.cache k with _ | e
  · simpa using h
  · simp only []
    by_cases hexp : (now : Int) - (e.timestamp : Int) > (c.ttl : Int)
    · rw [if_pos hexp]
      exact ecDelete_inv c k h
    · rw [if_neg hexp]
      show c.currentMemory = sumSizes (mapDelete c.cache k ++ [(k, _)])
      rw [sumSizes_append, sumSizes_mapDelete c.cache k e hg, h]
      unfold sumSizes
      simp

theorem ecHas_inv (c : EC) (k : String) (now : Nat)
    (h : c.currentMemory = sumSizes c.cache) :
    (ecHas c k now).1.currentMemory = sumSizes (ecHas c k now).1.cache := by
  unfold ecHas
  rcases hg : mapGet c.cache k with _ | e
  · simpa using h
  · simp only []
    by_cases hexp : (now : Int) - (e.timestamp : Int) > (c.ttl : Int)
    · rw [if_pos hexp]
      exact ecDelete_inv c k h
    · rw [if_neg hexp]
      exact h

theorem ecCleanup_fold_inv (ttl : Nat) (now : Nat) :
    ∀ (l : List (String × ECEntry)) (acc : EC × Nat),
      acc.1.currentMemory = sumSizes acc.1.cache →
      (l.foldl (fun acc kv =>
          if (now : Int) - kv.2.timestamp > ttl then ((ecDelete acc.1 kv.1).1, acc.2 + 1)
          else acc) acc).1.currentMemory
        = sumSizes (l.foldl (fun acc kv =>
            if (now : Int) - kv.2.timestamp > ttl then ((ecDelete acc.1 kv.1).1, acc.2 + 1)
            else acc) acc).1.cache := by
  intro l
  induction l with
  | nil => intro acc h; simpa using h
  | cons kv rest ih =>
    intro acc h
    simp only [List.foldl_cons]
    by_cases hexp : (now : Int) - (kv.2.timestamp : Int) > (ttl : Int)
    · rw [if_pos hexp]
      exact ih _ (ecDelete_inv acc.1 kv.1 h)
    · rw [if_neg hexp]
      exact ih acc h

theorem ecCleanup_inv (c : EC) (now : Nat)
    (h : c.currentMemory = sumSizes c.cache) :
    (ecCleanup c now).1.currentMemory = sumSizes (ecCleanup c now).1.cache := by
  unfold ecCleanup
  exact ecCleanup_fold_inv c.ttl now c.cache (c, 0) h

theorem ecStep_inv (c : EC) (op : ECOp)
    (h : c.currentMemory = sumSizes c.cache) :
    (ecStep c op).currentMemory = sumSizes (ecStep c op).cache := by
  cases op with
  | setOp k v now => exact ecSet_inv c k v now h
  | getOp k now => exact ecGet_inv c k now h
  | hasOp k now => exact ecHas_inv c k now h
  | delOp k => exact ecDelete_inv c k h
  | clearOp => simp [ecStep, ecClear, sumSizes]
  | cleanupOp now => exact ecCleanup_inv c now h

theorem ecRun_inv (ops : List ECOp) :
    ∀ (c : EC), c.currentMemory = sumSizes c.cache →
      (ecRun c ops).currentMemory = sumSizes (ecRun c ops).cache := by
  induction ops with
  | nil => intro c h; simpa [ecRun] using h
  | cons op rest ih =>
    intro c h
    show (ecRun (ecStep c op) rest).currentMemory = _
    exact ih (ecStep c op) (ecStep_inv c op h)

/-- C10: after every sequence of `set`, `get`, `has`, `delete`, `clear`
and `cleanup` operations on an `EnhancedCache`, the reported
`memoryUsage` equals the sum of the stored size estimates of exactly the
entries currently present (and is therefore never negative): every
operation that removes an entry subtracts that entry's recorded size
exactly once. -/
theorem enhanced_cache_memory_accounting :
    ∀ (maxSizeOpt ttlOpt maxMemoryOpt : Option Nat) (ops : List ECOp),
      ecMemoryUsage (ecRun (ecInit maxSizeOpt ttlOpt maxMemoryOpt) ops)
        = sumSizes (ecRun (ecInit maxSizeOpt ttlOpt maxMemoryOpt) ops).cache
      ∧ 0 ≤ ecMemoryUsage (ecRun (ecInit maxSizeOpt ttlOpt maxMemoryOpt) ops) := by
  intro maxSizeOpt ttlOpt maxMemoryOpt ops
  have hinv := ecRun_inv ops (ecInit maxSizeOpt ttlOpt maxMemoryOpt) (by simp [ecInit, sumSizes])
  refine ⟨hinv, ?_⟩
  unfold ecMemoryUsage
  rw [hinv]
  exact sumSizes_nonneg _

/-! Environment-resolution lemmas (claim C9). -/

theorem scanChars_nil (res : EnvResolverState) (path : String) :
    scanChars res path [] = .ok [] := by
  unfold scanChars
  rfl

theorem scanChars_cons_match (res : EnvResolverState) (path : String) (c : Char)
    (cs : List Char) (name : String) (dflt : Option String) (rest : List Char)
    (h : (if c = '$' then tryBrace cs else none) = some (name, dflt, rest)) :
    scanChars res path (c :: cs)
      = match substMatch res path name dflt with
        | .error e => .error e
        | .ok rep =>
          match scanChars res path rest with
          | .error e => .error e
          | .ok tail => .ok (rep.toList ++ tail) := by
  conv_lhs => unfold scanChars
  split
  next nmd heq =>
    rw [h] at heq
    obtain rfl : nmd = (name, dflt, rest) := by
      injection heq with h2
      exact h2.symm
    rfl
  next heq =>
    rw [h] at heq
    exact absurd heq (by simp)

theorem scanChars_cons_plain (res : EnvResolverState) (path : String) (c : Char)
    (cs : List Char) (h : (if c = '$' then tryBrace cs else none) = none) :
    scanChars res path (c :: cs)
      = match scanChars res path cs with
        | .error e => .error e
        | .ok tail => .ok (c :: tail) := by
  conv_lhs => unfold scanChars
  split
  next nmd heq =>
    rw [h] at heq
    exact absurd heq (by simp)
  next heq => rfl

theorem takeWhile_dropWhile_append (p : Char → Bool) :
    ∀ (xs : List Char) (d : Char) (ys : List Char),
      (∀ c ∈ xs, p c = true) → p d = false →
      (xs ++ d :: ys).takeWhile p = xs ∧ (xs ++ d :: ys).dropWhile p = d :: ys := by
  intro xs
  induction xs with
  | nil =>
    intro d ys _ hd
    simp [List.takeWhile_cons, List.dropWhile_cons, hd]
  | cons c xs ih =>
    intro d ys hall hd
    have hc : p c = true := hall c (by simp)
    have hrec := ih d ys (fun x hx => hall x (by simp [hx])) hd
    simp [List.takeWhile_cons, List.dropWhile_cons, hc, hrec.1, hrec.2]

theorem takeName_eq (nameCs : List Char) (d : Char) (rest : List Char)
    (hall : ∀ c ∈ nameCs, (c != cbrace && c != ':') = true)
    (hd : (d != cbrace && d != ':') = false) :
    takeName (nameCs ++ d :: rest) = (nameCs, d :: rest) := by
  unfold takeName
  rw [List.span_eq_take_drop]
  have h := takeWhile_dropWhile_append (fun c => c != cbrace && c != ':') nameCs d rest hall hd
  rw [h.1, h.2]

theorem takeDefault_eq (dfltCs : List Char) (rest : List Char)
    (hall : ∀ c ∈ dfltCs, (c != cbrace) = true) :
    takeDefault (dfltCs ++ cbrace :: rest) = (dfltCs, cbrace :: rest) := by
  unfold takeDefault
  rw [List.span_eq_take_drop]
  have h := takeWhile_dropWhile_append (fun c => c != cbrace) dfltCs cbrace rest hall (by simp)
  rw [h.1, h.2]

theorem tryMatch_with_default (name dflt rest : List Char)
    (hne : name ≠ [])
    (hname : ∀ c ∈ name, (c != cbrace && c != ':') = true)
    (hdflt : ∀ c ∈ dflt, (c != cbrace) = true) :
    tryMatch (name ++ ':' :: (dflt ++ cbrace :: rest))
      = some (String.mk name, some (String.mk dflt), rest) := by
  have hempty : name.isEmpty = false := by
    cases name with
    | nil => exact absurd rfl hne
    | cons a as => rfl
  unfold tryMatch
  simp only [takeName_eq name ':' (dflt ++ cbrace :: rest) hname (by decide), hempty,
    Bool.false_eq_true, if_false]
  simp [takeDefault_eq dflt rest hdflt]
  decide

theorem tryMatch_no_default (name rest : List Char)
    (hne : name ≠ [])
    (hname : ∀ c ∈ name, (c != cbrace && c != ':') = true) :
    tryMatch (name ++ cbrace :: rest) = some (String.mk name, none, rest) := by
  have hempty : name.isEmpty = false := by
    cases name with
    | nil => exact absurd rfl hne
    | cons a as => rfl
  unfold tryMatch
  simp only [takeName_eq name cbrace rest hname (by simp), hempty,
    Bool.false_eq_true, if_false]
  simp

theorem substMatch_nonstrict (res : EnvResolverState) (path name : String)
    (dflt : Option String) (h : res.strict = false) :
    ∃ s, substMatch res path name dflt = .ok s := by
  unfold substMatch
  rcases hg : mapGet res.env (fullNameOf res name) with _ | v
  · simp only [hg]
    rcases dflt with _ | d
    · refine ⟨"$" ++ lbr ++ name ++ rbr, ?_⟩
      simp [h]
    · exact ⟨d, rfl⟩
  · simp only [hg]
    exact ⟨v, rfl⟩

theorem scanChars_nonstrict (res : EnvResolverState) (h : res.strict = false)
    (path : String) :
    ∀ (n : Nat) (cs : List Char), cs.length ≤ n →
      ∃ out, scanChars res path cs = .ok out := by
  intro n
  induction n with
  | zero =>
    intro cs hlen
    have : cs = [] := List.length_eq_zero.mp (Nat.le_zero.mp hlen)
    subst this
    exact ⟨[], scanChars_nil res path⟩
  | succ n ih =>
    intro cs hlen
    cases cs with
    | nil => exact ⟨[], scanChars_nil res path⟩
    | cons c cs2 =>
      rcases hm : (if c = '$' then tryBrace cs2 else none) with _ | nmd
      · obtain ⟨out, hout⟩ := ih cs2 (by simpa using Nat.le_of_succ_le_succ hlen)
        refine ⟨c :: out, ?_⟩
        rw [scanChars_cons_plain res path c cs2 hm, hout]
      · obtain ⟨s, hs⟩ := substMatch_nonstrict res path nmd.1 nmd.2.1 h
        have hb : tryBrace cs2 = some nmd := by
          by_cases hc : c = '$'
          · rwa [if_pos hc] at hm
          · rw [if_neg hc] at hm
            exact absurd hm (by simp)
        have hlt := tryBrace_rest_lt cs2 nmd.1 nmd.2.1 nmd.2.2 hb
        have hlen2 : nmd.2.2.length ≤ n := by
          simp only [List.length_cons] at hlen
          omega
        obtain ⟨out, hout⟩ := ih nmd.2.2 hlen2
        refine ⟨s.toList ++ out, ?_⟩
        rw [scanChars_cons_match res path c cs2 nmd.1 nmd.2.1 nmd.2.2 hm, hs, hout]

theorem resolve_nonstrict_aux (res : EnvResolverState) (h : res.strict = false) :
    ∀ (n : Nat),
      (∀ (v : JValue) (path : String), sizeOf v ≤ n →
        ∃ u, resolveJ res v path = .ok u)
      ∧ (∀ (xs : List JValue) (path : String) (i : Nat), sizeOf xs ≤ n →
        ∃ out, resolveArr res xs path i = .ok out)
      ∧ (∀ (kvs : List (String × JValue)) (path : String), sizeOf kvs ≤ n →
        ∃ out, resolveObj res kvs path = .ok out) := by
  intro n
  induction n with
  | zero =>
    refine ⟨?_, ?_, ?_⟩
    · intro v path hv
      exact absurd hv (by cases v <;> simp)
    · intro xs path i hxs
      exact absurd hxs (by cases xs <;> simp)
    · intro kvs path hkvs
      exact absurd hkvs (by cases kvs <;> simp)
  | succ n ih =>
    refine ⟨?_, ?_, ?_⟩
    · intro v path hv
      cases v with
      | jnull => exact ⟨.jnull, by unfold resolveJ; rfl⟩
      | jbool b => exact ⟨.jbool b, by unfold resolveJ; rfl⟩
      | jnum m => exact ⟨.jnum m, by unfold resolveJ; rfl⟩
      | jstr s =>
        obtain ⟨out, hout⟩ := scanChars_nonstrict res h path s.toList.length s.toList
          (Nat.le_refl _)
        refine ⟨.jstr (String.mk out), ?_⟩
        unfold resolveJ resolveString
        rw [hout]
      | jarr xs =>
        have hxs : sizeOf xs ≤ n := by
          simp only [JValue.jarr.sizeOf_spec] at hv
          omega
        obtain ⟨out, hout⟩ := ih.2.1 xs path 0 hxs
        refine ⟨.jarr out, ?_⟩
        unfold resolveJ
        rw [hout]
      | jobj kvs =>
        have hkvs : sizeOf kvs ≤ n := by
          simp only [JValue.jobj.sizeOf_spec] at hv
          omega
        obtain ⟨out, hout⟩ := ih.2.2 kvs path hkvs
        refine ⟨.jobj out, ?_⟩
        unfold resolveJ
        rw [hout]
    · intro xs path i hxs
      cases xs with
      | nil => exact ⟨[], by unfold resolveArr; rfl⟩
      | cons x rest =>
        have hx : sizeOf x ≤ n := by
          simp only [List.cons.sizeOf_spec] at hxs
          omega
        have hrest : sizeOf rest ≤ n + 1 := by
          simp only [List.cons.sizeOf_spec] at hxs
          have hp : 0 < sizeOf x := by cases x <;> simp
          omega
        obtain ⟨u, hu⟩ := ih.1 x (path ++ "[" ++ toString i ++ "]") hx
        -- the tail still fits the current fuel: redo with the same ih at n
        have hrest2 : sizeOf rest ≤ n := by
          simp only [List.cons.sizeOf_spec] at hxs
          have hp : 0 < sizeOf x := by cases x <;> simp
          omega
        obtain ⟨out, hout⟩ := ih.2.1 rest path (i + 1) hrest2
        refine ⟨u :: out, ?_⟩
        unfold resolveArr
        rw [hu, hout]
    · intro kvs path hkvs
      cases kvs with
      | nil => exact ⟨[], by unfold resolveObj; rfl⟩
      | cons kv rest =>
        rcases kv with ⟨k, v⟩
        have hv : sizeOf v ≤ n := by
          simp only [List.cons.sizeOf_spec, Prod.mk.sizeOf_spec] at hkvs
          omega
        have hrest2 : sizeOf rest ≤ n := by
          simp only [List.cons.sizeOf_spec, Prod.mk.sizeOf_spec] at hkvs
          have hp : 0 < sizeOf v := by cases v <;> simp
          omega
        obtain ⟨u, hu⟩ := ih.1 v (if path ≠ "" then path ++ "." ++ k else k) hv
        obtain ⟨out, hout⟩ := ih.2.2 rest path hrest2
        refine ⟨(k, u) :: out, ?_⟩
        unfold resolveObj
        rw [hu, hout]

/-- C9: for every placeholder occurrence `$\x7bNAME\x7d` or
`$\x7bNAME:DEFAULT\x7d` in any string contained in the input, `resolve`
substitutes the environment value of `prefix + NAME` when defined,
otherwise `DEFAULT` when one was given (including the empty default),
otherwise in strict mode it throws an `EnvResolutionError` carrying the
(prefixed) variable name and the structural path of the occurrence, and in
non-strict mode it leaves the original token unsubstituted — and `resolve`
never throws unless `strict` is set.  Stated as: (a) non-strict `resolve`
always succeeds; (b1)/(b2) the scanner dispatches every placeholder
occurrence to the substitution callback and continues after it; and
(c)–(f) the callback's four behaviours. -/
theorem env_resolution_semantics :
    (∀ (res : EnvResolverState) (v : JValue) (path : String),
      res.strict = false → ∃ u, resolveJ res v path = .ok u)
    ∧ (∀ (res : EnvResolverState) (path : String) (name dflt rest : List Char),
        name ≠ [] → (∀ c ∈ name, (c != cbrace && c != ':') = true) →
        (∀ c ∈ dflt, (c != cbrace) = true) →
        scanChars res path ('$' :: obrace :: (name ++ ':' :: (dflt ++ cbrace :: rest)))
          = match substMatch res path (String.mk name) (some (String.mk dflt)) with
            | .error e => .error e
            | .ok rep => Except.map (fun tail => rep.toList ++ tail) (scanChars res path rest))
    ∧ (∀ (res : EnvResolverState) (path : String) (name rest : List Char),
        name ≠ [] → (∀ c ∈ name, (c != cbrace && c != ':') = true) →
        scanChars res path ('$' :: obrace :: (name ++ cbrace :: rest))
          = match substMatch res path (String.mk name) none with
            | .error e => .error e
            | .ok rep => Except.map (fun tail => rep.toList ++ tail) (scanChars res path rest))
    ∧ (∀ (res : EnvResolverState) (path name : String) (dflt : Option String) (v : String),
        mapGet res.env (fullNameOf res name) = some v →
        substMatch res path name dflt = .ok v)
    ∧ (∀ (res : EnvResolverState) (path name d : String),
        mapGet res.env (fullNameOf res name) = none →
        substMatch res path name (some d) = .ok d)
    ∧ (∀ (res : EnvResolverState) (path name : String),
        mapGet res.env (fullNameOf res name) = none → res.strict = true →
        substMatch res path name none
          = .error ⟨"Environment variable " ++ squote ++ fullNameOf res name ++ squote
              ++ " is not defined", fullNameOf res name, path⟩)
    ∧ (∀ (res : EnvResolverState) (path name : String),
        mapGet res.env (fullNameOf res name) = none → res.strict = false →
        substMatch res path name none = .ok ("$" ++ lbr ++ name ++ rbr)) := by
  refine ⟨?_, ?_, ?_, ?_, ?_, ?_, ?_⟩
  · intro res v path h
    exact (resolve_nonstrict_aux res h (sizeOf v)).1 v path (Nat.le_refl _)
  · intro res path name dflt rest hne hname hdflt
    have hb : (if '$' = '$' then tryBrace (obrace :: (name ++ ':' :: (dflt ++ cbrace :: rest)))
        else none) = some (String.mk name, some (String.mk dflt), rest) := by
      rw [if_pos rfl]
      show (if obrace = obrace then
          tryMatch (name ++ ':' :: (dflt ++ cbrace :: rest)) else none) = _
      rw [if_pos rfl]
      exact tryMatch_with_default name dflt rest hne hname hdflt
    rw [scanChars_cons_match res path '$' _ _ _ _ hb]
    cases hsub : substMatch res path (String.mk name) (some (String.mk dflt)) with
    | error e => rfl
    | ok rep =>
      cases hscan : scanChars res path rest with
      | error e => simp [hscan, Except.map]
      | ok tail => simp [hscan, Except.map]
  · intro res path name rest hne hname
    have hb : (if '$' = '$' then tryBrace (obrace :: (name ++ cbrace :: rest))
        else none) = some (String.mk name, none, rest) := by
      rw [if_pos rfl]
      show (if obrace = obrace then tryMatch (name ++ cbrace :: rest) else none) = _
      rw [if_pos rfl]
      exact tryMatch_no_default name rest hne hname
    rw [scanChars_cons_match res path '$' _ _ _ _ hb]
    cases hsub : substMatch res path (String.mk name) none with
    | error e => rfl
    | ok rep =>
      cases hscan : scanChars res path rest with
      | error e => simp [hscan, Except.map]
      | ok tail => simp [hscan, Except.map]
  · intro res path name dflt v h
    unfold substMatch
    rw [h]
  · intro res path name d h
    unfold substMatch
    rw [h]
  · intro res path name h hs
    unfold substMatch
    rw [h]
    simp [hs]
  · intro res path name h hs
    unfold substMatch
    rw [h]
    simp [hs]

/-- Witness for C9 at concrete inputs: a non-strict resolver succeeds on a
value; the strict callback on a missing variable produces the
`EnvResolutionError` with the variable name and path; the default branch
substitutes the default. -/
theorem env_resolution_semantics_witness :
    (∃ u, resolveJ ⟨[], false, "", true⟩
        (.jobj [("k", .jstr "$\x7bMISSING\x7d")]) "" = .ok u)
    ∧ substMatch ⟨[], true, "", true⟩ "a.b" "MISSING" none
        = .error ⟨"Environment variable " ++ squote ++ fullNameOf ⟨[], true, "", true⟩ "MISSING"
            ++ squote ++ " is not defined", fullNameOf ⟨[], true, "", true⟩ "MISSING", "a.b"⟩
    ∧ substMatch ⟨[], false, "", true⟩ "" "MISSING" (some "fallback") = .ok "fallback"
    ∧ substMatch ⟨[("HOST", "localhost")], false, "", true⟩ "" "HOST" none = .ok "localhost" :=
  ⟨env_resolution_semantics.1 ⟨[], false, "", true⟩ (.jobj [("k", .jstr "$\x7bMISSING\x7d")]) ""
      rfl,
   env_resolution_semantics.2.2.2.2.2.1 ⟨[], true, "", true⟩ "a.b" "MISSING" rfl rfl,
   env_resolution_semantics.2.2.2.2.1 ⟨[], false, "", true⟩ "" "MISSING" "fallback" rfl,
   env_resolution_semantics.2.2.2.1 ⟨[("HOST", "localhost")], false, "", true⟩ "" "HOST" none
      "localhost" rfl⟩

/-! Change-detection lemmas (claim C5). -/

theorem str_empty_append (s : String) : "" ++ s = s := by
  rcases s with ⟨d⟩
  show String.append ⟨[]⟩ ⟨d⟩ = ⟨d⟩
  rfl

theorem diffBoth_arr (ls rs : List JValue) (p : List PathKey) :
    diffBoth (.jarr ls) (.jarr rs) p = arrExtra ls rs p ++ arrCommon ls rs p 0 := by
  unfold diffBoth
  simp [realTypeOf]

theorem diffBoth_obj (lk rk : List (String × JValue)) (p : List PathKey) :
    diffBoth (.jobj lk) (.jobj rk) p = diffObjL lk rk p ++ objNews lk rk p := by
  unfold diffBoth
  simp [realTypeOf]

theorem arrCommon_nil_left (rs : List JValue) (p : List PathKey) (i : Nat) :
    arrCommon [] rs p i = [] := by
  unfold arrCommon
  rfl

theorem arrCommon_nil_right (ls : List JValue) (p : List PathKey) (i : Nat) :
    arrCommon ls [] p i = [] := by
  unfold arrCommon
  cases ls <;> rfl

theorem arrCommon_cons (l r : JValue) (ls rs : List JValue) (p : List PathKey) (i : Nat) :
    arrCommon (l :: ls) (r :: rs) p i
      = arrCommon ls rs p (i + 1) ++ diffBoth l r (p ++ [.idx i]) := by
  conv_lhs => unfold arrCommon

theorem diffObjL_nil (rk : List (String × JValue)) (p : List PathKey) :
    diffObjL [] rk p = [] := by
  unfold diffObjL
  rfl

theorem diffObjL_cons (k : String) (v : JValue) (rest rk : List (String × JValue))
    (p : List PathKey) :
    diffObjL ((k, v) :: rest) rk p
      = (match mapGet rk k with
         | some rv => diffBoth v rv (p ++ [.str k])
         | none => [.delR (p ++ [.str k]) v]) ++ diffObjL rest rk p := by
  conv_lhs => unfold diffObjL

theorem mem_arrExtra (ls rs : List JValue) (p : List PathKey) (d : DiffRecord)
    (h : d ∈ arrExtra ls rs p) :
    (∃ i, d = .arrR p i (.itemN (rs.getD i .jnull)))
    ∨ (∃ i, d = .arrR p i (.itemD (ls.getD i .jnull))) := by
  unfold arrExtra at h
  by_cases hlen : rs.length > ls.length
  · rw [if_pos hlen] at h
    simp only [List.mem_map] at h
    obtain ⟨i, _, hi⟩ := h
    exact Or.inl ⟨i, hi.symm⟩
  · rw [if_neg hlen] at h
    simp only [List.mem_map] at h
    obtain ⟨i, _, hi⟩ := h
    exact Or.inr ⟨i, hi.symm⟩

theorem mem_arrCommon :
    ∀ (ls rs : List JValue) (p : List PathKey) (i : Nat) (d : DiffRecord),
      d ∈ arrCommon ls rs p i →
      ∃ l r q, l ∈ ls ∧ d ∈ diffBoth l r q := by
  intro ls
  induction ls with
  | nil =>
    intro rs p i d h
    rw [arrCommon_nil_left] at h
    simp at h
  | cons l ls2 ih =>
    intro rs p i d h
    cases rs with
    | nil =>
      rw [arrCommon_nil_right] at h
      simp at h
    | cons r rs2 =>
      rw [arrCommon_cons] at h
      rcases List.mem_append.mp h with h1 | h2
      · obtain ⟨l2, r2, q2, hm, hd⟩ := ih rs2 p (i + 1) d h1
        exact ⟨l2, r2, q2, by simp [hm], hd⟩
      · exact ⟨l, r, p ++ [.idx i], by simp, h2⟩

theorem mem_diffObjL :
    ∀ (lk rk : List (String × JValue)) (p : List PathKey) (d : DiffRecord),
      d ∈ diffObjL lk rk p →
      (∃ k v, (k, v) ∈ lk ∧ d = .delR (p ++ [.str k]) v)
      ∨ (∃ k v rv, (k, v) ∈ lk ∧ d ∈ diffBoth v rv (p ++ [.str k])) := by
  intro lk
  induction lk with
  | nil =>
    intro rk p d h
    rw [diffObjL_nil] at h
    simp at h
  | cons kv rest ih =>
    intro rk p d h
    rcases kv with ⟨k, v⟩
    rw [diffObjL_cons] at h
    rcases List.mem_append.mp h with h1 | h2
    · rcases hg : mapGet rk k with _ | rv
      · rw [hg] at h1
        simp only [List.mem_singleton] at h1
        exact Or.inl ⟨k, v, by simp, h1⟩
      · rw [hg] at h1
        exact Or.inr ⟨k, v, rv, by simp, h1⟩
    · rcases ih rk p d h2 with ⟨k2, v2, hm, hd⟩ | ⟨k2, v2, rv2, hm, hd⟩
      · exact Or.inl ⟨k2, v2, by simp [hm], hd⟩
      · exact Or.inr ⟨k2, v2, rv2, by simp [hm], hd⟩

theorem mem_objNews (lk rk : List (String × JValue)) (p : List PathKey) (d : DiffRecord)
    (h : d ∈ objNews lk rk p) : ∃ k v, d = .newR (p ++ [.str k]) v := by
  unfold objNews at h
  simp only [List.mem_map, List.mem_filter] at h
  obtain ⟨kv, _, hkv⟩ := h
  exact ⟨kv.1, kv.2, hkv.symm⟩

theorem canon_realTypeOf (v : JValue) : realTypeOf (canon v) = realTypeOf v := by
  cases v <;> simp [canon, realTypeOf]

theorem jeq_realTypeOf (a b : JValue) (h : jeq a b = true) :
    realTypeOf a = realTypeOf b := by
  cases a <;> cases b <;> first
    | rfl
    | (exfalso; simp [jeq] at h)

theorem deepEqualB_false_of_realTypeOf_ne (a b : JValue)
    (h : realTypeOf a ≠ realTypeOf b) : deepEqualB a b = false := by
  unfold deepEqualB
  cases hj : jeq (canon a) (canon b) with
  | false => rfl
  | true =>
    exfalso
    apply h
    rw [← canon_realTypeOf a, ← canon_realTypeOf b]
    exact jeq_realTypeOf _ _ hj

theorem deepEqualB_false_of_jsStrictNe (a b : JValue) (h : jsStrictNe a b = true) :
    deepEqualB a b = false := by
  cases a <;> cases b <;>
    first
      | (exfalso; simp [jsStrictNe] at h; done)
      | (simp only [jsStrictNe, bne_iff_ne, ne_eq] at h
         simp [deepEqualB, canon, jeq, h])

theorem diffBoth_editR_inv :
    ∀ (n : Nat) (l : JValue), sizeOf l ≤ n →
      ∀ (r : JValue) (p q : List PathKey) (a b : JValue),
        DiffRecord.editR q a b ∈ diffBoth l r p → deepEqualB a b = false := by
  intro n
  induction n with
  | zero =>
    intro l hl
    exact absurd hl (by cases l <;> simp)
  | succ n ih =>
    intro l hl r p q a b hmem
    by_cases ht : (realTypeOf l != realTypeOf r) = true
    · have heq : diffBoth l r p = [.editR p l r] := by
        unfold diffBoth
        rw [if_pos ht]
      rw [heq] at hmem
      simp only [List.mem_singleton, DiffRecord.editR.injEq] at hmem
      obtain ⟨_, ha, hb⟩ := hmem
      subst ha
      subst hb
      exact deepEqualB_false_of_realTypeOf_ne a b (by simpa using ht)
    · have htf : realTypeOf l = realTypeOf r := by simpa using ht
      cases l with
      | jarr ls =>
        cases r with
        | jarr rs =>
          rw [diffBoth_arr] at hmem
          rcases List.mem_append.mp hmem with hex | hcom
          · rcases mem_arrExtra ls rs p _ hex with ⟨i, hi⟩ | ⟨i, hi⟩ <;> simp at hi
          · obtain ⟨l2, r2, q2, hm, hd⟩ := mem_arrCommon ls rs p 0 _ hcom
            have hsz : sizeOf l2 ≤ n := by
              have := List.sizeOf_lt_of_mem hm
              simp only [JValue.jarr.sizeOf_spec] at hl
              omega
            exact ih l2 hsz r2 q2 q a b hd
        | jnull => simp [realTypeOf] at htf
        | jbool c => simp [realTypeOf] at htf
        | jnum c => simp [realTypeOf] at htf
        | jstr c => simp [realTypeOf] at htf
        | jobj c => simp [realTypeOf] at htf
      | jobj lk =>
        cases r with
        | jobj rk =>
          rw [diffBoth_obj] at hmem
          rcases List.mem_append.mp hmem with hobj | hnews
          · rcases mem_diffObjL lk rk p _ hobj with ⟨k2, v2, hm, hd⟩ | ⟨k2, v2, rv2, hm, hd⟩
            · simp at hd
            · have hsz : sizeOf v2 ≤ n := by
                have := List.sizeOf_lt_of_mem hm
                simp only [JValue.jobj.sizeOf_spec, Prod.mk.sizeOf_spec] at hl this
                omega
              exact ih v2 hsz rv2 (p ++ [.str k2]) q a b hd
          · obtain ⟨k2, v2, hk⟩ := mem_objNews lk rk p _ hnews
            simp at hk
        | jnull => simp [realTypeOf] at htf
        | jbool c => simp [realTypeOf] at htf
        | jnum c => simp [realTypeOf] at htf
        | jstr c => simp [realTypeOf] at htf
        | jarr c => simp [realTypeOf] at htf
      | jnull =>
        cases r with
        | jnull =>
          have heq2 : diffBoth .jnull .jnull p = [] := by
            unfold diffBoth
            simp [realTypeOf, jsStrictNe]
          rw [heq2] at hmem
          simp at hmem
        | jbool c => simp [realTypeOf] at htf
        | jnum c => simp [realTypeOf] at htf
        | jstr c => simp [realTypeOf] at htf
        | jarr c => simp [realTypeOf] at htf
        | jobj c => simp [realTypeOf] at htf
      | jbool c =>
        cases r with
        | jbool c2 =>
          have heq2 : diffBoth (.jbool c) (.jbool c2) p
              = if jsStrictNe (.jbool c) (.jbool c2) then [.editR p (.jbool c) (.jbool c2)]
                else [] := by
            unfold diffBoth
            simp [realTypeOf]
          rw [heq2] at hmem
          by_cases hs : jsStrictNe (.jbool c) (.jbool c2) = true
          · rw [if_pos hs] at hmem
            simp only [List.mem_singleton, DiffRecord.editR.injEq] at hmem
            obtain ⟨_, ha, hb⟩ := hmem
            subst ha
            subst hb
            exact deepEqualB_false_of_jsStrictNe _ _ hs
          · rw [if_neg hs] at hmem
            simp at hmem
        | jnull => simp [realTypeOf] at htf
        | jnum c2 => simp [realTypeOf] at htf
        | jstr c2 => simp [realTypeOf] at htf
        | jarr c2 => simp [realTypeOf] at htf
        | jobj c2 => simp [realTypeOf] at htf
      | jnum c =>
        cases r with
        | jnum c2 =>
          have heq2 : diffBoth (.jnum c) (.jnum c2) p
              = if jsStrictNe (.jnum c) (.jnum c2) then [.editR p (.jnum c) (.jnum c2)]
                else [] := by
            unfold diffBoth
            simp [realTypeOf]
          rw [heq2] at hmem
          by_cases hs : jsStrictNe (.jnum c) (.jnum c2) = true
          · rw [if_pos hs] at hmem
            simp only [List.mem_singleton, DiffRecord.editR.injEq] at hmem
            obtain ⟨_, ha, hb⟩ := hmem
            subst ha
            subst hb
            exact deepEqualB_false_of_jsStrictNe _ _ hs
          · rw [if_neg hs] at hmem
            simp at hmem
        | jnull => simp [realTypeOf] at htf
        | jbool c2 => simp [realTypeOf] at htf
        | jstr c2 => simp [realTypeOf] at htf
        | jarr c2 => simp [realTypeOf] at htf
        | jobj c2 => simp [realTypeOf] at htf
      | jstr c =>
        cases r with
        | jstr c2 =>
          have heq2 : diffBoth (.jstr c) (.jstr c2) p
              = if jsStrictNe (.jstr c) (.jstr c2) then [.editR p (.jstr c) (.jstr c2)]
                else [] := by
            unfold diffBoth
            simp [realTypeOf]
          rw [heq2] at hmem
          by_cases hs : jsStrictNe (.jstr c) (.jstr c2) = true
          · rw [if_pos hs] at hmem
            simp only [List.mem_singleton, DiffRecord.editR.injEq] at hmem
            obtain ⟨_, ha, hb⟩ := hmem
            subst ha
            subst hb
            exact deepEqualB_false_of_jsStrictNe _ _ hs
          · rw [if_neg hs] at hmem
            simp at hmem
        | jnull => simp [realTypeOf] at htf
        | jbool c2 => simp [realTypeOf] at htf
        | jnum c2 => simp [realTypeOf] at htf
        | jarr c2 => simp [realTypeOf] at htf
        | jobj c2 => simp [realTypeOf] at htf

theorem arrCommon_take_right :
    ∀ (ls rs : List JValue) (p : List PathKey) (i : Nat),
      arrCommon ls (rs.take ls.length) p i = arrCommon ls rs p i := by
  intro ls
  induction ls with
  | nil =>
    intro rs p i
    rw [List.length_nil, List.take_zero, arrCommon_nil_left, arrCommon_nil_left]
  | cons l ls2 ih =>
    intro rs p i
    cases rs with
    | nil => simp [arrCommon_nil_right]
    | cons r rs2 =>
      rw [List.length_cons, List.take_succ_cons, arrCommon_cons, arrCommon_cons, ih]

theorem arrCommon_take_left :
    ∀ (ls rs : List JValue) (p : List PathKey) (i : Nat),
      arrCommon (ls.take rs.length) rs p i = arrCommon ls rs p i := by
  intro ls
  induction ls with
  | nil =>
    intro rs p i
    simp [arrCommon_nil_left]
  | cons l ls2 ih =>
    intro rs p i
    cases rs with
    | nil => rw [List.length_nil, List.take_zero, arrCommon_nil_left, arrCommon_nil_right]
    | cons r rs2 =>
      rw [List.length_cons, List.take_succ_cons, arrCommon_cons, arrCommon_cons, ih]

theorem arrExtra_len_eq (ls rs : List JValue) (p : List PathKey)
    (h : ls.length = rs.length) : arrExtra ls rs p = [] := by
  unfold arrExtra
  rw [h]
  simp

theorem detectChanges_array_growth (ls rs : List JValue) (f : String)
    (e : Option String) (t : Nat) (h : ls.length ≤ rs.length) :
    detectChanges (some (.jarr ls)) (some (.jarr rs)) f e t
      = ((List.range' ls.length (rs.length - ls.length)).reverse).map
          (fun i => ⟨.modified, "[" ++ toString i ++ "]", none,
                     some (rs.getD i .jnull), f, e, t⟩)
        ++ detectChanges (some (.jarr ls)) (some (.jarr (rs.take ls.length))) f e t := by
  unfold detectChanges
  simp only [deepDiff]
  rw [diffBoth_arr, diffBoth_arr, List.map_append, List.map_append]
  rw [arrExtra_len_eq ls (rs.take ls.length) [] (by rw [List.length_take]; omega)]
  rw [arrCommon_take_right]
  simp only [List.map_nil, List.nil_append]
  congr 1
  by_cases hgt : rs.length > ls.length
  · unfold arrExtra
    rw [if_pos hgt, List.map_map]
    apply List.map_congr_left
    intro i _
    simp only [Function.comp_apply, recordToChange]
    rw [show buildPath [] = "" from rfl, str_empty_append]
  · have hz : rs.length - ls.length = 0 := by omega
    unfold arrExtra
    rw [if_neg hgt, show ls.length - rs.length = 0 from by omega, hz]
    simp

theorem detectChanges_array_shrink (ls rs : List JValue) (f : String)
    (e : Option String) (t : Nat) (h : rs.length ≤ ls.length) :
    detectChanges (some (.jarr ls)) (some (.jarr rs)) f e t
      = ((List.range' rs.length (ls.length - rs.length)).reverse).map
          (fun i => ⟨.modified, "[" ++ toString i ++ "]",
                     some (ls.getD i .jnull), none, f, e, t⟩)
        ++ detectChanges (some (.jarr (ls.take rs.length))) (some (.jarr rs)) f e t := by
  unfold detectChanges
  simp only [deepDiff]
  rw [diffBoth_arr, diffBoth_arr, List.map_append, List.map_append]
  rw [arrExtra_len_eq (ls.take rs.length) rs [] (by rw [List.length_take]; omega)]
  rw [arrCommon_take_left]
  simp only [List.map_nil, List.nil_append]
  congr 1
  by_cases hgt : rs.length > ls.length
  · exact absurd hgt (by omega)
  · unfold arrExtra
    rw [if_neg hgt, List.map_map]
    apply List.map_congr_left
    intro i _
    simp only [Function.comp_apply, recordToChange]
    rw [show buildPath [] = "" from rfl, str_empty_append]

theorem detectChanges_record_invariant (oldC newC : Option JValue) (f : String)
    (e : Option String) (t : Nat) (c : ConfigChange)
    (hc : c ∈ detectChanges oldC newC f e t) :
    (c.type = .added → c.oldValue = none ∧ c.newValue ≠ none) ∧
    (c.type = .deleted → c.oldValue ≠ none ∧ c.newValue = none) ∧
    (c.type = .modified →
      (∃ x y, c.oldValue = some x ∧ c.newValue = some y ∧ deepEqualB x y = false)
      ∨ (c.oldValue = none ∧ c.newValue ≠ none)
      ∨ (c.oldValue ≠ none ∧ c.newValue = none)) := by
  unfold detectChanges at hc
  obtain ⟨d, hd, rfl⟩ := List.mem_map.mp hc
  cases d with
  | newR p v =>
    refine ⟨fun _ => by simp [recordToChange], fun hty => ?_, fun hty => ?_⟩ <;>
      simp [recordToChange] at hty
  | delR p v =>
    refine ⟨fun hty => ?_, fun _ => by simp [recordToChange], fun hty => ?_⟩ <;>
      simp [recordToChange] at hty
  | editR p a b =>
    have hne : deepEqualB a b = false := by
      cases oldC with
      | none =>
        cases newC with
        | none => simp [deepDiff] at hd
        | some r => simp [deepDiff] at hd
      | some l =>
        cases newC with
        | none => simp [deepDiff] at hd
        | some r =>
          simp only [deepDiff] at hd
          exact diffBoth_editR_inv (sizeOf l) l le_rfl r [] p a b hd
    refine ⟨fun hty => ?_, fun hty => ?_, fun _ => ?_⟩
    · simp [recordToChange] at hty
    · simp [recordToChange] at hty
    · exact Or.inl ⟨a, b, rfl, rfl, hne⟩
  | arrR p i item =>
    cases item with
    | itemN v =>
      refine ⟨fun hty => ?_, fun hty => ?_, fun _ => ?_⟩
      · simp [recordToChange] at hty
      · simp [recordToChange] at hty
      · exact Or.inr (Or.inl ⟨rfl, by simp [recordToChange]⟩)
    | itemD v =>
      refine ⟨fun hty => ?_, fun hty => ?_, fun _ => ?_⟩
      · simp [recordToChange] at hty
      · simp [recordToChange] at hty
      · exact Or.inr (Or.inr ⟨by simp [recordToChange], rfl⟩)

/-- C5 counterexample: growing `\x7ba: [1]\x7d` to `\x7ba: [1, 2]\x7d` makes
`detectChanges` emit, for the index present only in the longer new array, a
single record of type `modified` (from the deep-diff `'A'` record, whose
`item?.lhs` is absent) at the bracketed path `a[1]` — not an `added`
record as claimed, and with `oldValue` absent despite `type: 'modified'`. -/
theorem detect_changes_array_counterexample :
    detectChanges (some (.jobj [("a", .jarr [.jnum 1])]))
        (some (.jobj [("a", .jarr [.jnum 1, .jnum 2])])) "f" none 0
      = [(⟨.modified, "a[1]", none, some (.jnum 2), "f", none, 0⟩ : ConfigChange)]
    ∧ ChangeType.modified ≠ ChangeType.added :=
  ⟨rfl, by decide⟩

/-- C5 amended: when `detectChanges` compares two arrays, every index present
only in the longer new array yields a record of type `modified` (not `added`)
with `oldValue` absent and `newValue` the new element, at a bracketed-index
path, emitted in descending index order before the records of the common
prefix; symmetrically, every index present only in the longer old array
yields a `modified` (not `deleted`) record with `newValue` absent; and every
record `detectChanges` emits satisfies the weakened invariant: `added` has
`oldValue` absent and `newValue` present, `deleted` the reverse, and
`modified` has either both values present and unequal under deep structural
equality or exactly one value present (the array-item records). -/
theorem detect_changes_array_semantics :
    (∀ (ls rs : List JValue) (f : String) (e : Option String) (t : Nat),
        ls.length ≤ rs.length →
        detectChanges (some (.jarr ls)) (some (.jarr rs)) f e t
          = ((List.range' ls.length (rs.length - ls.length)).reverse).map
              (fun i => ⟨.modified, "[" ++ toString i ++ "]", none,
                         some (rs.getD i .jnull), f, e, t⟩)
            ++ detectChanges (some (.jarr ls)) (some (.jarr (rs.take ls.length))) f e t)
    ∧ (∀ (ls rs : List JValue) (f : String) (e : Option String) (t : Nat),
        rs.length ≤ ls.length →
        detectChanges (some (.jarr ls)) (some (.jarr rs)) f e t
          = ((List.range' rs.length (ls.length - rs.length)).reverse).map
              (fun i => ⟨.modified, "[" ++ toString i ++ "]",
                         some (ls.getD i .jnull), none, f, e, t⟩)
            ++ detectChanges (some (.jarr (ls.take rs.length))) (some (.jarr rs)) f e t)
    ∧ (∀ (oldC newC : Option JValue) (f : String) (e : Option String) (t : Nat)
          (c : ConfigChange), c ∈ detectChanges oldC newC f e t →
        (c.type = .added → c.oldValue = none ∧ c.newValue ≠ none) ∧
        (c.type = .deleted → c.oldValue ≠ none ∧ c.newValue = none) ∧
        (c.type = .modified →
          (∃ x y, c.oldValue = some x ∧ c.newValue = some y ∧ deepEqualB x y = false)
          ∨ (c.oldValue = none ∧ c.newValue ≠ none)
          ∨ (c.oldValue ≠ none ∧ c.newValue = none))) :=
  ⟨detectChanges_array_growth, detectChanges_array_shrink, detectChanges_record_invariant⟩

/-- Witness for C5 (amended): the array-growth equation instantiated at
`[1]` versus `[1, 2]`, whose extra index 1 yields the `modified` record with
`oldValue` absent. -/
theorem detect_changes_array_semantics_witness :
    ([(.jnum 1 : JValue)].length ≤ [(.jnum 1 : JValue), .jnum 2].length)
    ∧ detectChanges (some (.jarr [.jnum 1])) (some (.jarr [.jnum 1, .jnum 2])) "f" none 0
      = ((List.range' [(.jnum 1 : JValue)].length
            ([(.jnum 1 : JValue), .jnum 2].length - [(.jnum 1 : JValue)].length)).reverse).map
          (fun i => ⟨.modified, "[" ++ toString i ++ "]", none,
                     some ([(.jnum 1 : JValue), .jnum 2].getD i .jnull), "f", none, 0⟩)
        ++ detectChanges (some (.jarr [.jnum 1]))
            (some (.jarr ([(.jnum 1 : JValue), .jnum 2].take [(.jnum 1 : JValue)].length)))
            "f" none 0 :=
  ⟨by decide,
   detect_changes_array_semantics.1 [.jnum 1] [.jnum 1, .jnum 2] "f" none 0 (by decide)⟩

end Configmate
